import Mathlib

/-!
# NginxMemoryPool (`src/mmpool.c`): a shallow embedding

The allocator of `src/mmpool.c` is embedded as pure functions on an explicit
state.  Conventions:

* addresses and `size_t` values are natural numbers below `2 ^ 64` (LP64);
  pointer and `size_t` arithmetic that the code stores or compares is reduced
  modulo `2 ^ 64`, and `NULL` is `0`;
* the block chain (`pool->head` followed through `next`) is a list of blocks,
  head first; `pool->current` is an index into that list;
* the large-record chain (`pool->large` followed through `next`) is a list of
  records, first record first;
* the system allocator is an oracle `Sys`, asked once per `malloc` /
  `posix_memalign` call and indexed by the number of requests issued so far;
  calls of `free` are recorded in the order in which they happen;
* the recursion `mp_alloc -> mp_alloc_large -> mp_alloc` is bounded by a fuel
  argument: `none` means that the fuel ran out before the call returned;
* the pool header, the block headers and the large records are kept apart from
  the bytes of memory.  They live in that memory all the same, so the embedding
  describes the pool only while no store of an operation lands on one of them:
  `step` checks this after every call and gives no state when it fails.  What
  the caller writes into the memory it was given is no part of the operations
  and is not modelled.

`struct mp_pool_s` declares `head` as a pointer.  `mp_create_pool` never
assigns it and never writes `head->next`; line 63 reads `pool->head` and lines
66 to 69 store through it.  What these fields hold is not fixed by the code: it
is part of the environment (`Sys.uninit`), and `mp_create_pool` returns a pool
only when the value found in `pool->head` is the address of writable memory.
-/

namespace MMPool

/-! ## Constants and machine arithmetic -/

/-- Line 8: `#define MP_ALIGNMENT 32`. -/
def MP_ALIGNMENT : Nat := 32

/-- Line 9: `#define MP_PAGE_SIZE 4096`. -/
def MP_PAGE_SIZE : Nat := 4096

/-- Line 10: `#define MP_MAX_ALLOC_FROM_POOL (MP_PAGE_SIZE - 1)`. -/
def MP_MAX_ALLOC_FROM_POOL : Nat := MP_PAGE_SIZE - 1

/-- Size in bytes of `struct mp_large_s` on LP64 (two pointers). -/
def sizeof_mp_large_s : Nat := 16

/-- Size in bytes of `struct mp_node_s` on LP64 (three pointers and a `size_t`). -/
def sizeof_mp_node_s : Nat := 32

/-- Size in bytes of `struct mp_pool_s` on LP64 (a `size_t` and three pointers). -/
def sizeof_mp_pool_s : Nat := 32

/-- Offset in bytes of the field `next` in `struct mp_node_s` on LP64: it
follows the two pointers `last` and `end`. -/
def offsetof_next : Nat := 16

/-- Offset in bytes of the field `failed` in `struct mp_node_s` on LP64: it
follows the three pointers `last`, `end` and `next`. -/
def offsetof_failed : Nat := 24

/-- Reduction of a value to 64 bits, as stored in a pointer or a `size_t`. -/
def wrap (n : Nat) : Nat := n % 2 ^ 64

/-- The unsigned difference `(size_t)(a - b)` of two addresses. -/
def psub (a b : Nat) : Nat := (a % 2 ^ 64 + 2 ^ 64 - b % 2 ^ 64) % 2 ^ 64

/-- Line 14: `mp_align_ptr(p, alignment)`, that is
`((size_t) p + (alignment - 1)) & ~(alignment - 1)`; the mask `~(alignment - 1)`
converted to `size_t` is `2 ^ 64 - alignment`. -/
def mp_align_ptr (p alignment : Nat) : Nat :=
  ((p + (alignment - 1)) % 2 ^ 64) &&& (2 ^ 64 - alignment)

/-! ## Data model -/

/-- A large record, `struct mp_large_s`: `addr` is the address of the record
itself, `alloc` the pointer it holds (`0` is `NULL`); `next` is the list order. -/
structure mp_large_s where
  addr : Nat
  alloc : Nat
  deriving DecidableEq, Repr

/-- A block, `struct mp_node_s`: `addr` is the address of the block header,
`last`, `end_` (the field `end`) and `failed` are the fields of the struct, and
`next` is the list order.  `start` is a ghost field: the first data byte of the
block as computed when the block was created (line 66 for the head block, line
141 for the others); no operation changes it. -/
structure mp_node_s where
  addr : Nat
  start : Nat
  last : Nat
  end_ : Nat
  failed : Nat
  deriving DecidableEq, Repr

/-- The pool, `struct mp_pool_s`: `addr` is the address of the struct itself
(the pointer that `mp_create_pool` returns), `head` is the chain of blocks
reached from `pool->head`, `current` the position of `pool->current` in it,
`large` the chain of large records. -/
structure mp_pool_s where
  addr : Nat
  max : Nat
  head : List mp_node_s
  current : Nat
  large : List mp_large_s
  deriving DecidableEq, Repr

/-- What `mp_create_pool` finds in the memory that it reads without having
written it.  No line assigns `pool->head` and no line writes `head->next`:
`head` is the value that the field `pool->head` of the block just handed out
holds (`0` when it holds `NULL`), `writable` says whether that value is the
address of memory that can be written (a store through it faults otherwise),
and `next` is the chain of blocks found by following `head->next` (`[]` when
that field holds `NULL`). -/
structure Uninit where
  head : Nat
  writable : Bool
  next : List mp_node_s

/-- The system as an oracle.  `malloc n size` answers the request number `n`,
a `malloc (size)`; `posix_memalign n alignment size` answers the request number
`n`, a `posix_memalign (_, alignment, size)`.  `none` is a failure, `some a`
the address handed out.  `uninit` is what the memory handed out to
`mp_create_pool` holds in the fields that the code never writes. -/
structure Sys where
  malloc : Nat → Nat → Option Nat
  posix_memalign : Nat → Nat → Nat → Option Nat
  uninit : Uninit

/-- What the system allocator promises: a block handed out is not at address
zero, is aligned as asked, and ends inside the address space. -/
def SysOK (sys : Sys) : Prop :=
  (∀ n size a, sys.malloc n size = some a → a + size < 2 ^ 64) ∧
  (∀ n alignment size a, sys.posix_memalign n alignment size = some a →
    a ≠ 0 ∧ a % alignment = 0 ∧ a + size < 2 ^ 64)

/-- A pool together with the bookkeeping of the system calls: `nreq` counts the
`malloc` / `posix_memalign` requests issued so far, `freed` lists the addresses
passed to `free`, oldest first. -/
structure State where
  pool : mp_pool_s
  nreq : Nat
  freed : List Nat
  deriving DecidableEq, Repr

/-! ## Operations -/

/-- The outcome of `mp_create_pool`: `null` is the `NULL` result, `pool s` a
returned pool, and `undefined` is what remains when lines 66 to 69 store
through a value of `pool->head` that is not the address of a writable block
header of its own: the store goes through `NULL` or to memory that cannot be
written and faults, or it lands on the pool header. -/
inductive Created where
  | null
  | undefined
  | pool (s : State)
  deriving DecidableEq

/-- Lines 56-72: `mp_create_pool`.  Line 59 asks the system for the block `p`,
lines 62 and 64 write `max` and `large`.  Line 63 copies `p->head`, a field
that no line assigns, into `p->current`, and lines 66 to 69 store `last`, `end`
and `failed` through it: the head block is wherever that value points, its
`last` is `p + 64` all the same, and its `next` is never written. -/
def mp_create_pool (sys : Sys) (size : Nat) : Created :=
  match sys.posix_memalign 0 MP_ALIGNMENT
      (wrap (size + sizeof_mp_pool_s + sizeof_mp_node_s)) with
  | none => Created.null
  | some p =>
    let head := sys.uninit.head
    if head ≠ 0 ∧ sys.uninit.writable = true ∧
        (head + sizeof_mp_node_s ≤ p ∨ p + sizeof_mp_pool_s ≤ head) then
      let last := wrap (p + sizeof_mp_pool_s + sizeof_mp_node_s)
      Created.pool
        { pool :=
            { addr := p
              max := if size < MP_MAX_ALLOC_FROM_POOL then size else MP_MAX_ALLOC_FROM_POOL
              head :=
                { addr := head
                  start := last
                  last := last
                  end_ := wrap (last + size)
                  failed := 0 } :: sys.uninit.next
              current := 0
              large := [] }
          nreq := 1
          freed := [] }
    else Created.undefined

/-- Lines 100-119: `mp_reset_pool`.  The first loop frees every non-null
`alloc`, line 111 sets `pool->large = NULL`, the second loop rewinds `last` of
every block to `(unsigned char *) h + sizeof (struct mp_node_s)`. -/
def mp_reset_pool (s : State) : State :=
  { s with
    pool :=
      { s.pool with
        large := []
        head := s.pool.head.map fun h => { h with last := wrap (h.addr + sizeof_mp_node_s) } }
    freed := s.freed ++ (s.pool.large.filter fun l => l.alloc ≠ 0).map fun l => l.alloc }

/-- The `for` loop of `mp_alloc_block`, lines 146-150, started at block number
`i` with the blocks from there on: it visits every block that has a successor,
moves `current` behind a block whose counter was above 4 and increments the
counter.  The result is the visited part of the chain and the new `current`. -/
def mp_alloc_block_walk : Nat → List mp_node_s → Nat → List mp_node_s × Nat
  | _, [], current => ([], current)
  | _, [p], current => ([p], current)
  | i, p :: q :: rest, current =>
    let current1 := if p.failed > 4 then i + 1 else current
    let r := mp_alloc_block_walk (i + 1) (q :: rest) current1
    ({ p with failed := p.failed + 1 } :: r.1, r.2)

/-- The size of a new block, line 126: `(size_t)(h->end - (unsigned char *) h)`
for the head block `h`. -/
def mp_block_psize (pool : mp_pool_s) : Nat :=
  match pool.head with
  | [] => 0
  | h :: _ => psub h.end_ h.addr

/-- Lines 122-156: `mp_alloc_block`.  The result is the new state and the
pointer returned (`0` when `posix_memalign` fails). -/
def mp_alloc_block (sys : Sys) (s : State) (size : Nat) : State × Nat :=
  let psize := mp_block_psize s.pool
  match sys.posix_memalign s.nreq MP_ALIGNMENT psize with
  | none => ({ s with nreq := s.nreq + 1 }, 0)
  | some m0 =>
    let m := mp_align_ptr (wrap (m0 + sizeof_mp_node_s)) MP_ALIGNMENT
    let new_node : mp_node_s :=
      { addr := m0, start := m, last := wrap (m + size), end_ := wrap (m0 + psize), failed := 0 }
    let w := mp_alloc_block_walk s.pool.current (s.pool.head.drop s.pool.current) s.pool.current
    ({ s with
       pool :=
         { s.pool with
           head := s.pool.head.take s.pool.current ++ w.1 ++ [new_node]
           current := w.2 }
       nreq := s.nreq + 1 }, m)

/-- The `do ... while (p)` loop of `mp_alloc` (lines 233-241) and of
`mp_nalloc` (lines 260-267) over the blocks from `current` on; `cand` computes
the candidate start from `last` (`mp_align_ptr` in `mp_alloc`, the identity in
`mp_nalloc`).  `some (blocks, m)` is the `return m` inside the loop, `none` is
leaving the loop at the end of the chain. -/
def mp_scan (cand : Nat → Nat) (size : Nat) : List mp_node_s → Option (List mp_node_s × Nat)
  | [] => none
  | p :: rest =>
    let m := cand p.last
    if psub p.end_ m ≥ size then
      some ({ p with last := wrap (m + size) } :: rest, m)
    else
      match mp_scan cand size rest with
      | none => none
      | some (rest1, m1) => some (p :: rest1, m1)

/-- The small branch of `mp_alloc` / `mp_nalloc`: the scan from `current`, and
`mp_alloc_block` when no block takes the request. -/
def mp_alloc_small (sys : Sys) (cand : Nat → Nat) (s : State) (size : Nat) : State × Nat :=
  match mp_scan cand size (s.pool.head.drop s.pool.current) with
  | some (blocks, m) =>
    ({ s with pool := { s.pool with head := s.pool.head.take s.pool.current ++ blocks } }, m)
  | none => mp_alloc_block sys s size

/-- The `for` loop of `mp_alloc_large`, lines 171-177, with its counter `n`:
`some large` is the `return p` inside the loop with the updated chain, `none`
is leaving the loop. -/
def mp_alloc_large_scan (p : Nat) : Nat → List mp_large_s → Option (List mp_large_s)
  | _, [] => none
  | n, large :: rest =>
    if large.alloc = 0 then
      some ({ large with alloc := p } :: rest)
    else if n > 3 then
      none
    else
      match mp_alloc_large_scan p (n + 1) rest with
      | none => none
      | some rest1 => some (large :: rest1)

/-- Lines 160-196: `mp_alloc_large`.  `alloc` is the call `mp_alloc (pool, _)`
of line 182. -/
def mp_alloc_large (sys : Sys) (alloc : State → Nat → Option (State × Nat))
    (s : State) (size : Nat) : Option (State × Nat) :=
  let s1 : State := { s with nreq := s.nreq + 1 }
  match sys.malloc s.nreq size with
  | none => some (s1, 0)
  | some p =>
    if p = 0 then some (s1, 0)
    else
      match mp_alloc_large_scan p 0 s1.pool.large with
      | some large => some ({ s1 with pool := { s1.pool with large := large } }, p)
      | none =>
        match alloc s1 sizeof_mp_large_s with
        | none => none
        | some (s2, large) =>
          if large = 0 then
            some ({ s2 with freed := s2.freed ++ [p] }, 0)
          else
            some ({ s2 with
                    pool := { s2.pool with large := { addr := large, alloc := p } :: s2.pool.large } },
                  p)

/-- Lines 224-249: `mp_alloc`. -/
def mp_alloc (sys : Sys) : Nat → State → Nat → Option (State × Nat)
  | 0, _, _ => none
  | fuel + 1, s, size =>
    if size ≤ s.pool.max then
      some (mp_alloc_small sys (fun p => mp_align_ptr p MP_ALIGNMENT) s size)
    else
      mp_alloc_large sys (mp_alloc sys fuel) s size

/-- Lines 252-274: `mp_nalloc`. -/
def mp_nalloc (sys : Sys) (fuel : Nat) (s : State) (size : Nat) : Option (State × Nat) :=
  match fuel with
  | 0 => none
  | fuel1 + 1 =>
    if size ≤ s.pool.max then
      some (mp_alloc_small sys (fun p => p) s size)
    else
      mp_alloc_large sys (mp_alloc sys fuel1) s size

/-- Lines 199-219: `mp_memalign`. -/
def mp_memalign (sys : Sys) (fuel : Nat) (s : State) (size alignment : Nat) :
    Option (State × Nat) :=
  let s1 : State := { s with nreq := s.nreq + 1 }
  match sys.posix_memalign s.nreq alignment size with
  | none => some (s1, 0)
  | some p =>
    match mp_alloc sys fuel s1 sizeof_mp_large_s with
    | none => none
    | some (s2, large) =>
      if large = 0 then
        some ({ s2 with freed := s2.freed ++ [p] }, 0)
      else
        some ({ s2 with
                pool := { s2.pool with large := { addr := large, alloc := p } :: s2.pool.large } },
              p)

/-- The effect of `memset (p, 0, size)` on the bytes of memory. -/
def memset_zero (mem : Nat → Nat) (p size : Nat) : Nat → Nat :=
  fun a => if p ≤ a ∧ a < p + size then 0 else mem a

/-- Lines 278-287: `mp_calloc`, on a memory `mem` giving the byte at every
address.  The result is the new state, the new memory and the pointer. -/
def mp_calloc (sys : Sys) (fuel : Nat) (s : State) (mem : Nat → Nat) (size : Nat) :
    Option (State × (Nat → Nat) × Nat) :=
  match mp_alloc sys fuel s size with
  | none => none
  | some (s1, p) => if p ≠ 0 then some (s1, memset_zero mem p size, p) else some (s1, mem, p)

/-- The loop of `mp_free`, lines 293-300: `some large` is the `return` inside
the loop, reached at the first record whose `alloc` is `p`; `none` is leaving
the loop without a match. -/
def mp_free_scan (p : Nat) : List mp_large_s → Option (List mp_large_s)
  | [] => none
  | l :: rest =>
    if p = l.alloc then
      some ({ l with alloc := 0 } :: rest)
    else
      match mp_free_scan p rest with
      | none => none
      | some rest1 => some (l :: rest1)

/-- Lines 290-302: `mp_free`. -/
def mp_free (s : State) (p : Nat) : State :=
  match mp_free_scan p s.pool.large with
  | some large => { s with pool := { s.pool with large := large }, freed := s.freed ++ [p] }
  | none => s

/-! ## Public operations and reachable states -/

/-- A call of one of the public operations on an existing pool. -/
inductive Op where
  | alloc (size : Nat)
  | nalloc (size : Nat)
  | calloc (size : Nat)
  | memalign (size alignment : Nat)
  | free (p : Nat)
  | reset
  deriving DecidableEq, Repr

/-- Whether the `n` bytes at the address `a` and the `m` bytes at the address
`b` have a byte in common. -/
def overlaps (a n b m : Nat) : Bool :=
  decide (0 < n ∧ 0 < m ∧ a < b + m ∧ b < a + n)

/-- The memory that holds the data structures of the pool, as pairs of address
and size: the pool header, the block headers and the large records. -/
def headers (pool : mp_pool_s) : List (Nat × Nat) :=
  (pool.addr, sizeof_mp_pool_s) ::
    (pool.head.map (fun b => (b.addr, sizeof_mp_node_s)) ++
      pool.large.map (fun r => (r.addr, sizeof_mp_large_s)))

/-- No two regions of the list have a byte in common. -/
def disjoint_regions : List (Nat × Nat) → Bool
  | [] => true
  | r :: rest => rest.all (fun q => !overlaps r.1 r.2 q.1 q.2) && disjoint_regions rest

/-- The pool header, the block headers and the large records lie apart in
memory, so that a store to a field of one of them changes no other. -/
def separated (pool : mp_pool_s) : Bool := disjoint_regions (headers pool)

/-- The `n` bytes at the address `a` touch none of the data structures of the
pool. -/
def clear_of_headers (pool : mp_pool_s) (a n : Nat) : Bool :=
  (headers pool).all fun q => !overlaps a n q.1 q.2

/-- The result of an operation as a state of this model, when it is one: the
data structures of the pool after the call lie apart in memory.  Lines 135-141
write a block header, and lines 190-191 and 214-215 a large record, where the
allocator put them; when that is on top of another header or record the pool
in memory is no longer the one described here. -/
def described (s1 : State) : Option State :=
  if separated s1.pool = true then some s1 else none

/-- The state after one public operation.  `none` means that the fuel ran out,
or that the pool after the call is not described by this model: a header or
record was written on top of another one (`described`), or the `memset` of
`mp_calloc` (line 283) wrote over a header or record.  The pool does not
depend on the other bytes of memory, so `mp_calloc` is run on a memory of
zeros. -/
def step (sys : Sys) (fuel : Nat) (s : State) : Op → Option State
  | Op.alloc size => (mp_alloc sys fuel s size).bind fun r => described r.1
  | Op.nalloc size => (mp_nalloc sys fuel s size).bind fun r => described r.1
  | Op.calloc size =>
    (mp_calloc sys fuel s (fun _ => 0) size).bind fun r =>
      if r.2.2 = 0 ∨ clear_of_headers r.1.pool r.2.2 size = true then described r.1 else none
  | Op.memalign size alignment =>
    (mp_memalign sys fuel s size alignment).bind fun r => described r.1
  | Op.free p => described (mp_free s p)
  | Op.reset => described (mp_reset_pool s)

/-- The state after a sequence of public operations. -/
def run (sys : Sys) (fuel : Nat) : State → List Op → Option State
  | s, [] => some s
  | s, op :: ops =>
    match step sys fuel s op with
    | none => none
    | some s1 => run sys fuel s1 ops

/-- The states reachable from the state `s0` by the public operations, as far
as this model describes them; with `mp_create_pool sys C = Created.pool s0`
these are states reachable from `createPool (C)`. -/
inductive Reachable (sys : Sys) (s0 : State) : State → Prop where
  | init : Reachable sys s0 s0
  | step {s s1 : State} (fuel : Nat) (op : Op) :
      Reachable sys s0 s → step sys fuel s op = some s1 → Reachable sys s0 s1

/-- A sequence of `mp_alloc` calls, one per size, with the pointers returned
(the loop of `main`, lines 344-346, for arbitrary sizes). -/
def mp_alloc_seq (sys : Sys) (fuel : Nat) : State → List Nat → Option (State × List Nat)
  | s, [] => some (s, [])
  | s, size :: sizes =>
    match mp_alloc sys fuel s size with
    | none => none
    | some (s1, p) =>
      match mp_alloc_seq sys fuel s1 sizes with
      | none => none
      | some (s2, ps) => some (s2, p :: ps)

/-- The size `n` rounded up to a multiple of 32. -/
def round_up_32 (n : Nat) : Nat := (n + 31) / 32 * 32

/-- The bytes that a sequence of aligned allocations takes from one block whose
first candidate is 32-aligned: every size but the last rounded up to a multiple
of 32, plus the last size. -/
def fit_sum : List Nat → Nat
  | [] => 0
  | [x] => x
  | x :: y :: rest => round_up_32 x + fit_sum (y :: rest)

/-- A system for the examples: request number `n` is answered with the address
`2 ^ 20 * (n + 1)` when that address is aligned as asked and the block fits
below `2 ^ 64`, and fails otherwise.  The memory handed out to
`mp_create_pool` happens to hold, in the field `pool->head`, the address
`2 ^ 20 + 32` directly behind the pool header, and `NULL` in the field `next`
there: on this system the head block lies where lines 66 and 114 presume. -/
def demoSys : Sys where
  malloc := fun n size =>
    if 2 ^ 20 * (n + 1) + size < 2 ^ 64 then some (2 ^ 20 * (n + 1)) else none
  posix_memalign := fun n alignment size =>
    if 2 ^ 20 * (n + 1) % alignment = 0 ∧ 2 ^ 20 * (n + 1) + size < 2 ^ 64 then
      some (2 ^ 20 * (n + 1))
    else none
  uninit := { head := 2 ^ 20 + 32, writable := true, next := [] }

/-- The system `demoSys` handing out memory filled with zeros, as fresh pages
are: the field `pool->head` holds `NULL`. -/
def zeroSys : Sys :=
  { demoSys with uninit := { head := 0, writable := false, next := [] } }

/-- The system `demoSys` handing out recycled memory in which the field
`pool->head` holds the address `2 ^ 20 + 64`, the first data byte of the pool,
and the field `next` there holds `NULL`. -/
def dataSys : Sys :=
  { demoSys with uninit := { head := 2 ^ 20 + 64, writable := true, next := [] } }

/-- The system `demoSys` handing out recycled memory in which the field
`pool->head` holds a stale pointer to writable memory 64 KiB above the pool,
and the field `next` there holds `NULL`. -/
def staleSys : Sys :=
  { demoSys with uninit := { head := 2 ^ 20 + 2 ^ 16, writable := true, next := [] } }

/-- The system `demoSys` with one change: the second request is answered with
the address `2 ^ 20 - 96`, so that a block of 72 bytes handed out there ends 24
bytes below the pool at `2 ^ 20`. -/
def tightSys : Sys :=
  { demoSys with
    posix_memalign := fun n alignment size =>
      let a := if n = 1 then 2 ^ 20 - 96 else 2 ^ 20 * (n + 1)
      if a % alignment = 0 ∧ a + size < 2 ^ 64 then some a else none }

/-! ## Predicates used in the statements, and example states -/

/-- The pool created by `mp_create_pool demoSys 4096`. -/
def demo_pool : State :=
  { pool :=
      { addr := 1048576
        max := 4095
        head := [{ addr := 1048608, start := 1048640, last := 1048640, end_ := 1052736, failed := 0 }]
        current := 0
        large := [] }
    nreq := 1
    freed := [] }

/-- The pool `demo_pool` after ten calls `mp_alloc (pool, 512)` (lines 312-316
of `main`): the ninth call appended a second block. -/
def demo_two_blocks : State :=
  { pool :=
      { addr := 1048576
        max := 4095
        head := [{ addr := 1048608, start := 1048640, last := 1052736, end_ := 1052736, failed := 0 },
                 { addr := 2097152, start := 2097184, last := 2098208, end_ := 2101280, failed := 0 }]
        current := 0
        large := [] }
    nreq := 2
    freed := [] }

/-- The pool created by `mp_create_pool demoSys 32`. -/
def demo_pool_32 : State :=
  { pool :=
      { addr := 1048576
        max := 32
        head := [{ addr := 1048608, start := 1048640, last := 1048640, end_ := 1048672, failed := 0 }]
        current := 0
        large := [] }
    nreq := 1
    freed := [] }

/-- The pool created by `mp_create_pool demoSys 40`. -/
def demo_pool_40 : State :=
  { pool :=
      { addr := 1048576
        max := 40
        head := [{ addr := 1048608, start := 1048640, last := 1048640, end_ := 1048680, failed := 0 }]
        current := 0
        large := [] }
    nreq := 1
    freed := [] }

/-- The pool `demo_pool_40` after `mp_alloc (pool, 40)` and `mp_alloc (pool, 8)`. -/
def demo_overrun : State :=
  { pool :=
      { addr := 1048576
        max := 40
        head := [{ addr := 1048608, start := 1048640, last := 1048712, end_ := 1048680, failed := 0 }]
        current := 0
        large := [] }
    nreq := 1
    freed := [] }

/-- The pool created by `mp_create_pool demoSys 8`. -/
def demo_pool_8 : State :=
  { pool :=
      { addr := 1048576
        max := 8
        head := [{ addr := 1048608, start := 1048640, last := 1048640, end_ := 1048648, failed := 0 }]
        current := 0
        large := [] }
    nreq := 1
    freed := [] }

/-- The pool `demo_pool` after `mp_alloc (pool, 512)`. -/
def demo_pool_512 : State :=
  { pool :=
      { addr := 1048576
        max := 4095
        head := [{ addr := 1048608, start := 1048640, last := 1049152, end_ := 1052736, failed := 0 }]
        current := 0
        large := [] }
    nreq := 1
    freed := [] }

/-- The pool `demo_pool` after eight calls `mp_alloc (pool, 512)`: the head
block is full. -/
def demo_full_block : State :=
  { pool :=
      { addr := 1048576
        max := 4095
        head := [{ addr := 1048608, start := 1048640, last := 1052736, end_ := 1052736, failed := 0 }]
        current := 0
        large := [] }
    nreq := 1
    freed := [] }

/-- The pool `demo_full_block` after the ninth `mp_alloc (pool, 512)`, which
appended a second block. -/
def demo_ninth : State :=
  { pool :=
      { addr := 1048576
        max := 4095
        head := [{ addr := 1048608, start := 1048640, last := 1052736, end_ := 1052736, failed := 0 },
                 { addr := 2097152, start := 2097184, last := 2097696, end_ := 2101280, failed := 0 }]
        current := 0
        large := [] }
    nreq := 2
    freed := [] }

/-- The pool `demo_pool` after `mp_alloc (pool, 8192)`: one live large record. -/
def demo_one_large : State :=
  { pool :=
      { addr := 1048576
        max := 4095
        head := [{ addr := 1048608, start := 1048640, last := 1048656, end_ := 1052736, failed := 0 }]
        current := 0
        large := [{ addr := 1048640, alloc := 2097152 }] }
    nreq := 2
    freed := [] }

/-- A block with its `failed` counter incremented, the effect of `p->failed ++`
in line 147. -/
def incr_failed (b : mp_node_s) : mp_node_s := { b with failed := b.failed + 1 }

/-- The pool `demo_pool_32` after six calls `mp_alloc (pool, 32)`: six blocks,
the head block with the counter 4. -/
def demo_32_six : State :=
  { pool :=
      { addr := 1048576
        max := 32
        head := [{ addr := 1048608, start := 1048640, last := 1048672, end_ := 1048672, failed := 4 },
                 { addr := 2097152, start := 2097184, last := 2097216, end_ := 2097216, failed := 3 },
                 { addr := 3145728, start := 3145760, last := 3145792, end_ := 3145792, failed := 2 },
                 { addr := 4194304, start := 4194336, last := 4194368, end_ := 4194368, failed := 1 },
                 { addr := 5242880, start := 5242912, last := 5242944, end_ := 5242944, failed := 0 },
                 { addr := 6291456, start := 6291488, last := 6291520, end_ := 6291520, failed := 0 }]
        current := 0
        large := [] }
    nreq := 6
    freed := [] }

/-- The pool `demo_32_six` after a seventh `mp_alloc (pool, 32)`. -/
def demo_32_seven : State :=
  { pool :=
      { addr := 1048576
        max := 32
        head := [{ addr := 1048608, start := 1048640, last := 1048672, end_ := 1048672, failed := 5 },
                 { addr := 2097152, start := 2097184, last := 2097216, end_ := 2097216, failed := 4 },
                 { addr := 3145728, start := 3145760, last := 3145792, end_ := 3145792, failed := 3 },
                 { addr := 4194304, start := 4194336, last := 4194368, end_ := 4194368, failed := 2 },
                 { addr := 5242880, start := 5242912, last := 5242944, end_ := 5242944, failed := 1 },
                 { addr := 6291456, start := 6291488, last := 6291520, end_ := 6291520, failed := 0 },
                 { addr := 7340032, start := 7340064, last := 7340096, end_ := 7340096, failed := 0 }]
        current := 0
        large := [] }
    nreq := 7
    freed := [] }

/-- The pool `demo_32_seven` after an eighth `mp_alloc (pool, 32)`. -/
def demo_32_eight : State :=
  { pool :=
      { addr := 1048576
        max := 32
        head := [{ addr := 1048608, start := 1048640, last := 1048672, end_ := 1048672, failed := 6 },
                 { addr := 2097152, start := 2097184, last := 2097216, end_ := 2097216, failed := 5 },
                 { addr := 3145728, start := 3145760, last := 3145792, end_ := 3145792, failed := 4 },
                 { addr := 4194304, start := 4194336, last := 4194368, end_ := 4194368, failed := 3 },
                 { addr := 5242880, start := 5242912, last := 5242944, end_ := 5242944, failed := 2 },
                 { addr := 6291456, start := 6291488, last := 6291520, end_ := 6291520, failed := 1 },
                 { addr := 7340032, start := 7340064, last := 7340096, end_ := 7340096, failed := 0 },
                 { addr := 8388608, start := 8388640, last := 8388672, end_ := 8388672, failed := 0 }]
        current := 1
        large := [] }
    nreq := 8
    freed := [] }

/-- The pool `demo_two_blocks` after `mp_reset_pool` and `mp_alloc (pool, 32)`. -/
def demo_reset_32 : State :=
  { pool :=
      { addr := 1048576
        max := 4095
        head := [{ addr := 1048608, start := 1048640, last := 1048672, end_ := 1052736, failed := 0 },
                 { addr := 2097152, start := 2097184, last := 2097184, end_ := 2101280, failed := 0 }]
        current := 0
        large := [] }
    nreq := 2
    freed := [] }

/-- The pool created by `mp_create_pool dataSys 32`: the header of the head
block lies at the first data byte of the pool. -/
def data_pool_32 : State :=
  { pool :=
      { addr := 1048576
        max := 32
        head := [{ addr := 1048640, start := 1048640, last := 1048640, end_ := 1048672, failed := 0 }]
        current := 0
        large := [] }
    nreq := 1
    freed := [] }

/-- The pool `data_pool_32` after `mp_alloc (pool, 32)`: the head block is full. -/
def data_full : State :=
  { pool :=
      { addr := 1048576
        max := 32
        head := [{ addr := 1048640, start := 1048640, last := 1048672, end_ := 1048672, failed := 0 }]
        current := 0
        large := [] }
    nreq := 1
    freed := [] }

/-- The pool `data_full` after a second `mp_alloc (pool, 32)`, which appended a
block of 32 bytes in all. -/
def data_grown : State :=
  { pool :=
      { addr := 1048576
        max := 32
        head := [{ addr := 1048640, start := 1048640, last := 1048672, end_ := 1048672, failed := 0 },
                 { addr := 2097152, start := 2097184, last := 2097216, end_ := 2097184, failed := 0 }]
        current := 0
        large := [] }
    nreq := 2
    freed := [] }

/-- The pool created by `mp_create_pool staleSys 4096`: the header of the head
block lies 64 KiB above the pool. -/
def stale_pool : State :=
  { pool :=
      { addr := 1048576
        max := 4095
        head := [{ addr := 1114112, start := 1048640, last := 1048640, end_ := 1052736, failed := 0 }]
        current := 0
        large := [] }
    nreq := 1
    freed := [] }

/-- The pool `stale_pool` after eight calls `mp_alloc (pool, 512)`. -/
def stale_full : State :=
  { pool :=
      { addr := 1048576
        max := 4095
        head := [{ addr := 1114112, start := 1048640, last := 1052736, end_ := 1052736, failed := 0 }]
        current := 0
        large := [] }
    nreq := 1
    freed := [] }

/-- The pool created by `mp_create_pool tightSys 40` after eight calls
`mp_alloc (pool, 32)`, `mp_nalloc (pool, 8)` and `mp_alloc (pool, 32)`: the
second block, which ends 24 bytes below the pool, has its `last` at the header
of the head block. -/
def tight_before : State :=
  { pool :=
      { addr := 1048576
        max := 40
        head := [{ addr := 1048608, start := 1048640, last := 1048672, end_ := 1048680, failed := 6 },
                 { addr := 1048480, start := 1048512, last := 1048608, end_ := 1048552, failed := 5 },
                 { addr := 3145728, start := 3145760, last := 3145792, end_ := 3145800, failed := 4 },
                 { addr := 4194304, start := 4194336, last := 4194368, end_ := 4194376, failed := 3 },
                 { addr := 5242880, start := 5242912, last := 5242944, end_ := 5242952, failed := 2 },
                 { addr := 6291456, start := 6291488, last := 6291520, end_ := 6291528, failed := 1 },
                 { addr := 7340032, start := 7340064, last := 7340096, end_ := 7340104, failed := 0 },
                 { addr := 8388608, start := 8388640, last := 8388672, end_ := 8388680, failed := 0 }]
        current := 1
        large := [] }
    nreq := 8
    freed := [] }

/-- The state that `mp_calloc (pool, 32)` returns on `tight_before`: the second
block has given out the 32 bytes at the header of the head block. -/
def tight_after : State :=
  { pool :=
      { addr := 1048576
        max := 40
        head := [{ addr := 1048608, start := 1048640, last := 1048672, end_ := 1048680, failed := 6 },
                 { addr := 1048480, start := 1048512, last := 1048640, end_ := 1048552, failed := 5 },
                 { addr := 3145728, start := 3145760, last := 3145792, end_ := 3145800, failed := 4 },
                 { addr := 4194304, start := 4194336, last := 4194368, end_ := 4194376, failed := 3 },
                 { addr := 5242880, start := 5242912, last := 5242944, end_ := 5242952, failed := 2 },
                 { addr := 6291456, start := 6291488, last := 6291520, end_ := 6291528, failed := 1 },
                 { addr := 7340032, start := 7340064, last := 7340096, end_ := 7340104, failed := 0 },
                 { addr := 8388608, start := 8388640, last := 8388672, end_ := 8388680, failed := 0 }]
        current := 1
        large := [] }
    nreq := 8
    freed := [] }

/-- The pool `demo_one_large` after `mp_reset_pool` and `mp_alloc (pool, 8192)`. -/
def demo_reset_large : State :=
  { pool :=
      { addr := 1048576
        max := 4095
        head := [{ addr := 1048608, start := 1048640, last := 1048656, end_ := 1052736, failed := 0 }]
        current := 0
        large := [{ addr := 1048640, alloc := 3145728 }] }
    nreq := 3
    freed := [2097152] }

/-- The pool created by `mp_create_pool demoSys 100`. -/
def demo_pool_100 : State :=
  { pool :=
      { addr := 1048576
        max := 100
        head := [{ addr := 1048608, start := 1048640, last := 1048640, end_ := 1048740, failed := 0 }]
        current := 0
        large := [] }
    nreq := 1
    freed := [] }

/-! ## Lemmas -/

theorem land_mask (x : Nat) (hx : x < 2 ^ 64) : x &&& (2 ^ 64 - 32) = x / 32 * 32 := by
  apply Nat.eq_of_testBit_eq
  intro i
  have h1 : (2:Nat) ^ 64 - 32 = 2 ^ 64 - (31 + 1) := by norm_num
  have h2 : x / 32 * 32 = 2 ^ 5 * (x >>> 5) := by
    rw [Nat.shiftRight_eq_div_pow]; norm_num [Nat.mul_comm]
  have h3 : (31 : Nat) = 2 ^ 5 - 1 := by norm_num
  rw [Nat.testBit_and, h1, Nat.testBit_two_pow_sub_succ (by norm_num), h2, Nat.testBit_mul_pow_two,
    Nat.testBit_shiftRight, h3, Nat.testBit_two_pow_sub_one]
  by_cases h5 : i < 5
  · have : ¬ (5 ≤ i) := by omega
    simp [h5, this]
  · have h5' : 5 ≤ i := by omega
    have e : 5 + (i - 5) = i := by omega
    rw [e]
    by_cases h64 : i < 64
    · simp [h5, h5', h64]
    · have : x.testBit i = false := by
        apply Nat.testBit_lt_two_pow
        calc x < 2 ^ 64 := hx
          _ ≤ 2 ^ i := Nat.pow_le_pow_right (by norm_num) (by omega)
      simp [h5, h5', h64, this]

theorem mp_align_ptr_eq (p : Nat) : mp_align_ptr p MP_ALIGNMENT = (p + 31) % 2 ^ 64 / 32 * 32 := by
  unfold mp_align_ptr MP_ALIGNMENT
  exact land_mask _ (Nat.mod_lt _ (by norm_num))

theorem mp_align_ptr_mod (p : Nat) : mp_align_ptr p MP_ALIGNMENT % 32 = 0 := by
  rw [mp_align_ptr_eq]; omega

theorem reachable_of_run {sys : Sys} {s0 : State} {fuel : Nat} :
    ∀ (ops : List Op) {s s1 : State}, Reachable sys s0 s → run sys fuel s ops = some s1 →
      Reachable sys s0 s1 := by
  intro ops
  induction ops with
  | nil => intro s s1 hs h; simp [run] at h; exact h ▸ hs
  | cons op ops ih =>
    intro s s1 hs h
    simp only [run] at h
    cases hstep : step sys fuel s op with
    | none => simp [hstep] at h
    | some s2 =>
      simp only [hstep] at h
      exact ih (Reachable.step fuel op hs hstep) h

theorem mp_scan_result {cand : Nat → Nat} {size : Nat} :
    ∀ {l bl : List mp_node_s} {m : Nat}, mp_scan cand size l = some (bl, m) →
      ∃ b ∈ l, m = cand b.last := by
  intro l
  induction l with
  | nil => intro bl m h; simp [mp_scan] at h
  | cons b rest ih =>
    intro bl m h
    simp only [mp_scan] at h
    split at h
    · simp only [Option.some.injEq, Prod.mk.injEq] at h
      exact ⟨b, by simp, h.2.symm⟩
    · cases hr : mp_scan cand size rest with
      | none => simp [hr] at h
      | some r =>
        obtain ⟨r1, r2⟩ := r
        simp only [hr, Option.some.injEq, Prod.mk.injEq] at h
        obtain ⟨b1, hb1, hm⟩ := ih hr
        exact ⟨b1, by simp [hb1], h.2 ▸ hm⟩

theorem mp_free_scan_none (p : Nat) :
    ∀ (l : List mp_large_s), (∀ r ∈ l, r.alloc ≠ p) → mp_free_scan p l = none := by
  intro l
  induction l with
  | nil => intro _; rfl
  | cons r rest ih =>
    intro h
    have h1 : ¬ p = r.alloc := fun e => h r (by simp) e.symm
    have h2 := ih (fun r1 hr1 => h r1 (by simp [hr1]))
    simp [mp_free_scan, h1, h2]

theorem mp_alloc_block_none {sys : Sys} {s : State} (size : Nat)
    (hm : sys.posix_memalign s.nreq MP_ALIGNMENT (mp_block_psize s.pool) = none) :
    mp_alloc_block sys s size = ({ s with nreq := s.nreq + 1 }, 0) := by
  simp only [mp_alloc_block, hm]

theorem mp_alloc_block_some {sys : Sys} {s : State} (size : Nat) {m0 : Nat}
    (hm : sys.posix_memalign s.nreq MP_ALIGNMENT (mp_block_psize s.pool) = some m0) :
    mp_alloc_block sys s size =
      ({ s with
         pool :=
           { s.pool with
             head := s.pool.head.take s.pool.current ++
               (mp_alloc_block_walk s.pool.current (s.pool.head.drop s.pool.current)
                 s.pool.current).1 ++
               [{ addr := m0
                  start := mp_align_ptr (wrap (m0 + sizeof_mp_node_s)) MP_ALIGNMENT
                  last := wrap (mp_align_ptr (wrap (m0 + sizeof_mp_node_s)) MP_ALIGNMENT + size)
                  end_ := wrap (m0 + mp_block_psize s.pool)
                  failed := 0 }]
             current := (mp_alloc_block_walk s.pool.current (s.pool.head.drop s.pool.current)
               s.pool.current).2 }
         nreq := s.nreq + 1 },
       mp_align_ptr (wrap (m0 + sizeof_mp_node_s)) MP_ALIGNMENT) := by
  simp only [mp_alloc_block, hm]

theorem demoSys_ok : SysOK demoSys := by
  constructor
  · intro n size a h
    simp only [demoSys] at h
    split at h
    · simp only [Option.some.injEq] at h
      omega
    · simp at h
  · intro n alignment size a h
    simp only [demoSys] at h
    split at h
    · rename_i hc
      simp only [Option.some.injEq] at h
      subst h
      exact ⟨by omega, hc.1, hc.2⟩
    · simp at h

theorem demo_two_blocks_reachable : Reachable demoSys demo_pool demo_two_blocks :=
  reachable_of_run (List.replicate 10 (Op.alloc 512)) Reachable.init
    (by decide : run demoSys 1 demo_pool (List.replicate 10 (Op.alloc 512)) = some demo_two_blocks)

theorem align_of_aligned (x : Nat) (h : x % 32 = 0) (hx : x < 2 ^ 64) :
    mp_align_ptr x MP_ALIGNMENT = x := by
  rw [mp_align_ptr_eq]; omega

theorem mp_alloc_small_fit (sys : Sys) (cand : Nat → Nat) (t : State) (size : Nat)
    (pre post : List mp_node_s) (b : mp_node_s) (hhead : t.pool.head = pre ++ b :: post)
    (hcur : t.pool.current = pre.length) (hfit : psub b.end_ (cand b.last) ≥ size) :
    mp_alloc_small sys cand t size =
      ({ t with pool := { t.pool with
          head := pre ++ { b with last := wrap (cand b.last + size) } :: post } },
        cand b.last) := by
  unfold mp_alloc_small
  rw [hhead, hcur, List.drop_left, List.take_left]
  simp only [mp_scan, hfit, if_true]

theorem mp_alloc_large_scan_none (p : Nat) :
    ∀ (l : List mp_large_s) (n : Nat), n ≤ 4 →
      (mp_alloc_large_scan p n l = none ↔ ∀ r ∈ l.take (5 - n), r.alloc ≠ 0) := by
  intro l
  induction l with
  | nil => intro n _; simp [mp_alloc_large_scan]
  | cons r rest ih =>
    intro n hn
    obtain ⟨k, hk⟩ : ∃ k, 5 - n = k + 1 := ⟨4 - n, by omega⟩
    simp only [mp_alloc_large_scan, hk, List.take_succ_cons, List.mem_cons, forall_eq_or_imp]
    by_cases h0 : r.alloc = 0
    · simp [h0]
    · simp only [h0, if_false, ne_eq, not_false_eq_true, true_and]
      by_cases h3 : n > 3
      · have : k = 0 := by omega
        simp [h3, this]
      · have hk1 : 5 - (n + 1) = k := by omega
        have := ih (n + 1) (by omega)
        rw [hk1] at this
        simp only [h3, if_false]
        rw [← this]
        cases mp_alloc_large_scan p (n + 1) rest <;> simp

theorem mp_alloc_small_large (sys : Sys) (cand : Nat → Nat) (s : State) (size : Nat) :
    (mp_alloc_small sys cand s size).1.pool.large = s.pool.large ∧
      (mp_alloc_small sys cand s size).1.freed = s.freed := by
  unfold mp_alloc_small
  cases hscan : mp_scan cand size (s.pool.head.drop s.pool.current) with
  | some r => exact ⟨rfl, rfl⟩
  | none =>
    cases hm : sys.posix_memalign s.nreq MP_ALIGNMENT (mp_block_psize s.pool) with
    | none => simp only [mp_alloc_block_none size hm, and_self]
    | some m0 => simp only [mp_alloc_block_some size hm, and_self]

/-- When the record is too large for the small path and no slot is free, a
large allocation never returns a pointer. -/
theorem mp_alloc_large_no_record (sys : Sys) :
    ∀ (fuel : Nat) (s : State) (size : Nat) (s1 : State) (p : Nat),
      s.pool.max < sizeof_mp_large_s → s.pool.max < size →
      (∀ r ∈ s.pool.large.take 5, r.alloc ≠ 0) →
      mp_alloc sys fuel s size = some (s1, p) → p = 0 := by
  intro fuel
  induction fuel with
  | zero => intro s size s1 p _ _ _ h; simp [mp_alloc] at h
  | succ fuel ih =>
    intro s size s1 p hmax hsize hfree h
    have hsz : ¬ size ≤ s.pool.max := by omega
    simp only [mp_alloc, hsz, if_false, mp_alloc_large] at h
    cases hm : sys.malloc s.nreq size with
    | none =>
      simp only [hm, Option.some.injEq, Prod.mk.injEq] at h
      exact h.2.symm
    | some q =>
      simp only [hm] at h
      by_cases hq : q = 0
      · simp only [hq, if_true, Option.some.injEq, Prod.mk.injEq] at h
        exact h.2.symm
      · have hnone := (mp_alloc_large_scan_none q s.pool.large 0 (by omega)).2 hfree
        simp only [hq, if_false, hnone] at h
        cases hal : mp_alloc sys fuel { s with nreq := s.nreq + 1 } sizeof_mp_large_s with
        | none => simp [hal] at h
        | some r =>
          obtain ⟨s2, l⟩ := r
          have hl : l = 0 := ih { s with nreq := s.nreq + 1 } sizeof_mp_large_s s2 l hmax hmax hfree hal
          simp only [hal, hl, if_true, Option.some.injEq, Prod.mk.injEq] at h
          exact h.2.symm

/-- The two ways in which a large allocation succeeds: a record among those
that the scan visits is bound, or a new record is put in front. -/
theorem mp_alloc_large_cases (sys : Sys) (fuel : Nat) (s s1 : State) (size p : Nat)
    (hsize : s.pool.max < size) (h : mp_alloc sys fuel s size = some (s1, p)) (hp : p ≠ 0) :
    (∃ l1, mp_alloc_large_scan p 0 s.pool.large = some l1 ∧ s1.pool.large = l1) ∨
      (mp_alloc_large_scan p 0 s.pool.large = none ∧
        ∃ a, s1.pool.large = { addr := a, alloc := p } :: s.pool.large) := by
  cases fuel with
  | zero => simp [mp_alloc] at h
  | succ fuel =>
    have hsz : ¬ size ≤ s.pool.max := by omega
    simp only [mp_alloc, hsz, if_false, mp_alloc_large] at h
    cases hm : sys.malloc s.nreq size with
    | none =>
      simp only [hm, Option.some.injEq, Prod.mk.injEq] at h
      exact absurd h.2.symm hp
    | some q =>
      simp only [hm] at h
      by_cases hq : q = 0
      · simp only [hq, if_true, Option.some.injEq, Prod.mk.injEq] at h
        exact absurd h.2.symm hp
      · simp only [hq, if_false] at h
        cases hscan : mp_alloc_large_scan q 0 s.pool.large with
        | some l1 =>
          simp only [hscan, Option.some.injEq, Prod.mk.injEq] at h
          obtain ⟨h1, h2⟩ := h
          subst h2
          exact Or.inl ⟨l1, hscan, by rw [← h1]⟩
        | none =>
          simp only [hscan] at h
          cases hal : mp_alloc sys fuel { s with nreq := s.nreq + 1 } sizeof_mp_large_s with
          | none => simp [hal] at h
          | some r =>
            obtain ⟨s2, l⟩ := r
            simp only [hal] at h
            by_cases hl : l = 0
            · simp only [hl, if_true, Option.some.injEq, Prod.mk.injEq] at h
              exact absurd h.2.symm hp
            · simp only [hl, if_false, Option.some.injEq, Prod.mk.injEq] at h
              obtain ⟨h1, h2⟩ := h
              subst h2
              have hfree := (mp_alloc_large_scan_none q s.pool.large 0 (by omega)).1 hscan
              have h16 : sizeof_mp_large_s ≤ s.pool.max := by
                by_contra hc
                exact hl (mp_alloc_large_no_record sys fuel { s with nreq := s.nreq + 1 }
                  sizeof_mp_large_s s2 l (by simpa using hc) (by simpa using hc) hfree hal)
              cases fuel with
              | zero => simp [mp_alloc] at hal
              | succ fuel =>
                simp only [mp_alloc, h16, if_true, Option.some.injEq] at hal
                have hlg := (mp_alloc_small_large sys (fun p => mp_align_ptr p MP_ALIGNMENT)
                  { s with nreq := s.nreq + 1 } sizeof_mp_large_s).1
                rw [hal] at hlg
                simp only at hlg
                exact Or.inr ⟨hscan, l, by rw [← h1]; simp [hlg]⟩

/-- The more fuel `mp_alloc` is given, the deeper it goes: while `malloc`
succeeds, a pool whose threshold is below the size of a large record, and that
has no free slot in reach of the scan, sends every request for a record back
into `mp_alloc_large`. -/
theorem mp_alloc_no_return (sys : Sys) :
    ∀ (fuel : Nat) (s : State) (size : Nat), s.pool.max < sizeof_mp_large_s →
      s.pool.max < size → (∀ r ∈ s.pool.large.take 5, r.alloc ≠ 0) →
      (∀ n sz, s.nreq ≤ n → n < s.nreq + fuel → sz = size ∨ sz = sizeof_mp_large_s →
        ∃ q, sys.malloc n sz = some q ∧ q ≠ 0) →
      mp_alloc sys fuel s size = none := by
  intro fuel
  induction fuel with
  | zero => intro s size _ _ _ _; rfl
  | succ fuel ih =>
    intro s size hmax hsize hfree hsys
    have hsz : ¬ size ≤ s.pool.max := by omega
    obtain ⟨q, hq, hq0⟩ := hsys s.nreq size (by omega) (by omega) (Or.inl rfl)
    have hnone := (mp_alloc_large_scan_none q s.pool.large 0 (by omega)).2 hfree
    have hrec := ih { s with nreq := s.nreq + 1 } sizeof_mp_large_s hmax hmax hfree
      (fun n sz h1 h2 h3 => hsys n sz (by simp only at h1; omega) (by simp only at h2; omega)
        (Or.inr (by rcases h3 with h3 | h3 <;> exact h3)))
    simp only [mp_alloc, hsz, if_false, mp_alloc_large, hq, hq0, hnone, hrec]

/-- What the walk of `mp_alloc_block` does to the blocks: all but the last of
the blocks it is started on get their counter incremented. -/
theorem mp_alloc_block_walk_fst :
    ∀ (l : List mp_node_s) (i cur : Nat),
      (mp_alloc_block_walk i l cur).1 = l.dropLast.map incr_failed ++ l.getLast?.toList := by
  intro l
  induction l with
  | nil => intro i cur; simp [mp_alloc_block_walk]
  | cons p t ih =>
    intro i cur
    cases t with
    | nil => simp [mp_alloc_block_walk]
    | cons q rest =>
      simp only [mp_alloc_block_walk, ih, List.dropLast_cons₂, List.map_cons, List.cons_append,
        List.getLast?_cons_cons, incr_failed]

/-- No walked block with a counter above 4: `current` stays. -/
theorem mp_alloc_block_walk_stay :
    ∀ (l : List mp_node_s) (i cur : Nat), (∀ b ∈ l.dropLast, b.failed ≤ 4) →
      (mp_alloc_block_walk i l cur).2 = cur := by
  intro l
  induction l with
  | nil => intro i cur _; simp [mp_alloc_block_walk]
  | cons p t ih =>
    intro i cur h
    cases t with
    | nil => simp [mp_alloc_block_walk]
    | cons q rest =>
      simp only [List.dropLast_cons₂, List.mem_cons, forall_eq_or_imp] at h
      have hp : ¬ p.failed > 4 := by omega
      simp only [mp_alloc_block_walk, hp, if_false]
      exact ih (i + 1) cur h.2

/-- The walked block number `j` is the last one with a counter above 4:
`current` ends behind it. -/
theorem mp_alloc_block_walk_move :
    ∀ (l : List mp_node_s) (i cur j : Nat) (hj : j + 1 < l.length),
      (l[j]).failed > 4 →
      (∀ k (hk : k + 1 < l.length), j < k → (l[k]).failed ≤ 4) →
      (mp_alloc_block_walk i l cur).2 = i + j + 1 := by
  intro l
  induction l with
  | nil => intro i cur j hj; simp at hj
  | cons p t ih =>
    intro i cur j hj hfj hlast
    cases t with
    | nil => simp at hj
    | cons q rest =>
      simp only [mp_alloc_block_walk]
      cases j with
      | zero =>
        simp only [List.getElem_cons_zero] at hfj
        simp only [hfj, if_true]
        rw [mp_alloc_block_walk_stay]
        intro b hb
        obtain ⟨k, hk, rfl⟩ := List.getElem_of_mem hb
        simp only [List.length_dropLast, List.length_cons] at hk
        have := hlast (k + 1) (by simp only [List.length_cons]; omega) (by omega)
        simpa [List.getElem_dropLast] using this
      | succ j =>
        simp only [List.length_cons] at hj
        have := ih (i + 1) (if p.failed > 4 then i + 1 else cur) j
          (by simp only [List.length_cons]; omega)
          (by simpa using hfj)
          (fun k hk hjk => by
            have := hlast (k + 1) (by simp only [List.length_cons] at hk ⊢; omega) (by omega)
            simpa using this)
        rw [this]; omega

/-- The block that takes a request in the scan of `mp_alloc` / `mp_nalloc`. -/
theorem mp_scan_blocks {cand : Nat → Nat} {size : Nat} :
    ∀ {l bl : List mp_node_s} {m : Nat}, mp_scan cand size l = some (bl, m) →
      ∃ pre b post, l = pre ++ b :: post ∧ m = cand b.last ∧ psub b.end_ m ≥ size ∧
        bl = pre ++ { b with last := wrap (m + size) } :: post := by
  intro l
  induction l with
  | nil => intro bl m h; simp [mp_scan] at h
  | cons b rest ih =>
    intro bl m h
    simp only [mp_scan] at h
    split at h
    · rename_i hfit
      simp only [Option.some.injEq, Prod.mk.injEq] at h
      obtain ⟨rfl, rfl⟩ := h
      exact ⟨[], b, rest, rfl, rfl, hfit, rfl⟩
    · cases hr : mp_scan cand size rest with
      | none => simp [hr] at h
      | some r =>
        obtain ⟨r1, r2⟩ := r
        simp only [hr, Option.some.injEq, Prod.mk.injEq] at h
        obtain ⟨rfl, rfl⟩ := h
        obtain ⟨pre, b1, post, hl, hm, hfit, hbl⟩ := ih hr
        exact ⟨b :: pre, b1, post, by rw [hl]; rfl, hm, hfit, by rw [hbl]; rfl⟩

theorem mp_alloc_block_walk_stay_idx (l : List mp_node_s) (i cur : Nat)
    (h : ∀ k b, k + 1 < l.length → l[k]? = some b → b.failed ≤ 4) :
    (mp_alloc_block_walk i l cur).2 = cur := by
  apply mp_alloc_block_walk_stay
  intro b hb
  obtain ⟨k, hk, rfl⟩ := List.getElem_of_mem hb
  have hk1 : k + 1 < l.length := by simp only [List.length_dropLast] at hk; omega
  apply h k _ hk1
  rw [List.getElem_dropLast]
  exact List.getElem?_eq_getElem (by omega)

theorem mp_alloc_block_walk_move_idx (l : List mp_node_s) (i cur j : Nat) (b : mp_node_s)
    (hj : j + 1 < l.length) (hb : l[j]? = some b) (hf : b.failed > 4)
    (hlast : ∀ k c, j < k → k + 1 < l.length → l[k]? = some c → c.failed ≤ 4) :
    (mp_alloc_block_walk i l cur).2 = i + j + 1 := by
  apply mp_alloc_block_walk_move l i cur j hj
  · obtain ⟨_, hb1⟩ := List.getElem?_eq_some.1 hb
    rw [hb1]; exact hf
  · intro k hk hjk
    exact hlast k _ hjk hk (List.getElem?_eq_getElem (by omega))

theorem demo_32_six_reachable : Reachable demoSys demo_pool_32 demo_32_six :=
  reachable_of_run (List.replicate 6 (Op.alloc 32)) Reachable.init
    (by decide : run demoSys 1 demo_pool_32 (List.replicate 6 (Op.alloc 32)) = some demo_32_six)

theorem demo_32_seven_reachable : Reachable demoSys demo_pool_32 demo_32_seven :=
  reachable_of_run (List.replicate 7 (Op.alloc 32)) Reachable.init
    (by decide : run demoSys 1 demo_pool_32 (List.replicate 7 (Op.alloc 32)) = some demo_32_seven)

theorem demo_full_block_reachable : Reachable demoSys demo_pool demo_full_block :=
  reachable_of_run (List.replicate 8 (Op.alloc 512)) Reachable.init
    (by decide : run demoSys 1 demo_pool (List.replicate 8 (Op.alloc 512)) = some demo_full_block)

theorem mp_nalloc_large (sys : Sys) (fuel : Nat) (s : State) (size : Nat)
    (hsize : s.pool.max < size) : mp_nalloc sys fuel s size = mp_alloc sys fuel s size := by
  have hsz : ¬ size ≤ s.pool.max := by omega
  cases fuel with
  | zero => rfl
  | succ fuel => simp only [mp_nalloc, mp_alloc, hsz, if_false]

/-- A sequence of aligned allocations that fits in the block at `current`,
every size but the last counted with its padding, is served by that block. -/
theorem mp_alloc_seq_fits (sys : Sys) (fuel : Nat) (hfuel : 0 < fuel) :
    ∀ (sizes : List Nat) (t : State) (pre post : List mp_node_s) (b : mp_node_s),
      t.pool.head = pre ++ b :: post → t.pool.current = pre.length →
      (∀ x ∈ sizes, x ≤ t.pool.max) →
      (sizes ≠ [] → 0 < mp_align_ptr b.last MP_ALIGNMENT ∧
        mp_align_ptr b.last MP_ALIGNMENT + fit_sum sizes ≤ b.end_) →
      b.end_ < 2 ^ 64 →
      ∃ t1 ps, mp_alloc_seq sys fuel t sizes = some (t1, ps) ∧ ps.length = sizes.length ∧
        (∀ p ∈ ps, p ≠ 0) ∧ t1.pool.head.length = t.pool.head.length ∧ t1.nreq = t.nreq := by
  intro sizes
  induction sizes with
  | nil =>
    intro t pre post b _ _ _ _ _
    exact ⟨t, [], rfl, rfl, by simp, rfl, rfl⟩
  | cons size rest ih =>
    intro t pre post b hhead hcur hmax hfits hend
    obtain ⟨hpos, hsum⟩ := hfits (by simp)
    obtain ⟨f, rfl⟩ : ∃ f, fuel = f + 1 := ⟨fuel - 1, by omega⟩
    have hsz : size ≤ t.pool.max := hmax size (by simp)
    have hmod := mp_align_ptr_mod b.last
    have hle : mp_align_ptr b.last MP_ALIGNMENT + size ≤ b.end_ ∧
        (rest ≠ [] → mp_align_ptr b.last MP_ALIGNMENT + (size + 31) / 32 * 32 +
          fit_sum rest ≤ b.end_) := by
      cases rest with
      | nil => simp only [fit_sum] at hsum; exact ⟨hsum, fun h => absurd rfl h⟩
      | cons y r =>
        simp only [fit_sum, round_up_32] at hsum
        exact ⟨by omega, fun _ => by omega⟩
    have hfit : psub b.end_ (mp_align_ptr b.last MP_ALIGNMENT) ≥ size := by
      simp only [psub]; omega
    have hsmall := mp_alloc_small_fit sys (fun p => mp_align_ptr p MP_ALIGNMENT) t size pre post b
      hhead hcur hfit
    have hnext : mp_align_ptr (wrap (mp_align_ptr b.last MP_ALIGNMENT + size)) MP_ALIGNMENT =
        (mp_align_ptr b.last MP_ALIGNMENT + (size + 31) / 32 * 32) % 2 ^ 64 := by
      rw [mp_align_ptr_eq (wrap _)]
      simp only [wrap]
      omega
    obtain ⟨t1, ps, hseq, hlen, hps, hhl, hnr⟩ := ih
      { t with pool := { t.pool with
          head := pre ++ { b with last := wrap (mp_align_ptr b.last MP_ALIGNMENT + size) } :: post } }
      pre post { b with last := wrap (mp_align_ptr b.last MP_ALIGNMENT + size) } rfl hcur
      (fun x hx => hmax x (by simp [hx]))
      (fun hne => by
        have := hle.2 hne
        simp only [hnext]
        constructor <;> omega)
      hend
    refine ⟨t1, mp_align_ptr b.last MP_ALIGNMENT :: ps, ?_, by simp [hlen], ?_, ?_, ?_⟩
    · simp only [mp_alloc_seq, mp_alloc, hsz, if_true, hsmall, hseq]
    · intro p hp
      simp only [List.mem_cons] at hp
      rcases hp with rfl | hp
      · omega
      · exact hps p hp
    · rw [hhl, hhead]; simp
    · rw [hnr]

/-- The system `tightSys` keeps the promises of a system allocator. -/
theorem tightSys_ok : SysOK tightSys := by
  constructor
  · intro n size a h
    exact demoSys_ok.1 n size a h
  · intro n alignment size a h
    by_cases hn : n = 1
    · have h1 : (if (2 ^ 20 - 96) % alignment = 0 ∧ 2 ^ 20 - 96 + size < 2 ^ 64 then
          some (2 ^ 20 - 96) else none) = some a := by
        simpa [tightSys, hn] using h
      split at h1
      · rename_i hc
        simp only [Option.some.injEq] at h1
        subst h1
        exact ⟨by omega, hc.1, hc.2⟩
      · simp at h1
    · have h1 : demoSys.posix_memalign n alignment size = some a := by
        simpa [tightSys, hn, demoSys] using h
      exact demoSys_ok.2 n alignment size a h1

/-- On the system `demoSys` the pool of capacity 4096 is created as `demo_pool`. -/
theorem demo_pool_created : mp_create_pool demoSys 4096 = Created.pool demo_pool := by
  decide

/-! ## The claims C1 to C10 -/

/-- C1 (the code breaks the invariant): `last <= end` does not hold in every
reachable state.  In the pool created with capacity 40, after
`mp_alloc (pool, 40)` and `mp_alloc (pool, 8)` the head block has
`last = end + 32`: the second call rounds `last = end` up to the next multiple
of 32, which lies behind `end`, and the unsigned difference `end - m` of line
236 wraps to a huge value that passes the size test. -/
theorem alloc_overruns_block :
    mp_create_pool demoSys 40 = Created.pool demo_pool_40 ∧
      Reachable demoSys demo_pool_40 demo_overrun ∧
      run demoSys 1 demo_pool_40 [Op.alloc 40, Op.alloc 8] = some demo_overrun ∧
      ∃ b ∈ demo_overrun.pool.head, b.end_ < b.last ∧ b.last = b.end_ + 32 :=
  ⟨by decide,
    reachable_of_run [Op.alloc 40, Op.alloc 8] Reachable.init
      (by decide : run demoSys 1 demo_pool_40 [Op.alloc 40, Op.alloc 8] = some demo_overrun),
    by decide, by decide⟩

/-- C2 as stated fails: `mp_reset_pool` does not keep the large records.  On a
reachable pool with one live record the large chain is empty after the call,
not the old chain with `alloc` set to null. -/
theorem reset_drops_large_records :
    Reachable demoSys demo_pool demo_one_large ∧
      demo_one_large.pool.large.length = 1 ∧
      (mp_reset_pool demo_one_large).pool.large.length = 0 ∧
      (mp_reset_pool demo_one_large).pool.large ≠
        demo_one_large.pool.large.map (fun l => { l with alloc := 0 }) :=
  ⟨reachable_of_run [Op.alloc 8192] Reachable.init
      (by decide : run demoSys 2 demo_pool [Op.alloc 8192] = some demo_one_large),
    by decide, by decide, by decide⟩

/-- C2 amended: for every pool, `mp_reset_pool` passes the `alloc` of every
large record with a non-null `alloc` to `free`, once each and in chain order,
and leaves the large chain empty (`pool->large = NULL`): no record is kept.
A large allocation made after the call (`mp_alloc` or `mp_nalloc` with
`size > pool.max`) that succeeds therefore finds no record to reuse and makes a
new one: the large chain then consists of that single record. -/
theorem mp_reset_pool_large (s : State) :
    (mp_reset_pool s).pool.large = [] ∧
      (mp_reset_pool s).freed =
        s.freed ++ (s.pool.large.filter fun l => l.alloc ≠ 0).map (fun l => l.alloc) ∧
      (mp_reset_pool s).nreq = s.nreq ∧
      ∀ (sys : Sys) (fuel size : Nat) (s1 : State) (p : Nat), s.pool.max < size →
        mp_alloc sys fuel (mp_reset_pool s) size = some (s1, p) ∨
          mp_nalloc sys fuel (mp_reset_pool s) size = some (s1, p) →
        p ≠ 0 → ∃ a, s1.pool.large = [{ addr := a, alloc := p }] := by
  refine ⟨rfl, rfl, rfl, ?_⟩
  intro sys fuel size s1 p hsize h hp
  have hal : mp_alloc sys fuel (mp_reset_pool s) size = some (s1, p) := by
    rcases h with h | h
    · exact h
    · rwa [mp_nalloc_large sys fuel (mp_reset_pool s) size hsize] at h
  rcases mp_alloc_large_cases sys fuel (mp_reset_pool s) s1 size p hsize hal hp with
    ⟨l1, hscan, _⟩ | ⟨_, a, hs1⟩
  · simp [mp_reset_pool, mp_alloc_large_scan] at hscan
  · exact ⟨a, hs1⟩

/-- C2 amended, on the pool of `main` with its one live record: the reset
frees the 8192 bytes at 2097152 and drops the record, and the next
`mp_alloc (pool, 8192)` makes a new record, the only one of the chain. -/
theorem mp_reset_pool_large_witness :
    mp_alloc demoSys 2 (mp_reset_pool demo_one_large) 8192 = some (demo_reset_large, 3145728) ∧
      (mp_reset_pool demo_one_large).pool.large = [] ∧
      (mp_reset_pool demo_one_large).freed = [2097152] ∧
      ∃ a, demo_reset_large.pool.large = [{ addr := a, alloc := 3145728 }] :=
  ⟨by decide, by decide, by decide,
    (mp_reset_pool_large demo_one_large).2.2.2 demoSys 2 8192 demo_reset_large 3145728
      (by decide) (Or.inl (by decide)) (by decide)⟩

/-- C3 (the code breaks the claim): `mp_create_pool` stores through the field
`pool->head` (lines 66 to 69), which no line assigns.  Whenever the system
allocation succeeds and that field holds `NULL`, as it does in zero-filled
memory, or an address that cannot be written, the call does not return a
pool. -/
theorem mp_create_pool_faults (sys : Sys) (C p : Nat)
    (hp : sys.posix_memalign 0 MP_ALIGNMENT
      (wrap (C + sizeof_mp_pool_s + sizeof_mp_node_s)) = some p)
    (hw : sys.uninit.head = 0 ∨ sys.uninit.writable = false) :
    mp_create_pool sys C = Created.undefined := by
  rcases hw with hw | hw <;> simp [mp_create_pool, hp, hw]

/-- C3 at `C = 4096` on zero-filled memory: the system hands out the block at
`2 ^ 20`, its field `pool->head` holds `NULL`, and no pool is returned. -/
theorem mp_create_pool_faults_witness :
    (zeroSys.posix_memalign 0 MP_ALIGNMENT
          (wrap (4096 + sizeof_mp_pool_s + sizeof_mp_node_s)) = some 1048576 ∧
        zeroSys.uninit.head = 0) ∧
      mp_create_pool zeroSys 4096 = Created.undefined :=
  ⟨⟨by decide, by decide⟩,
    mp_create_pool_faults zeroSys 4096 1048576 (by decide) (Or.inl (by decide))⟩

/-- C4: for every pool and every `size <= pool.max`, the pointer returned by
`mp_alloc` is a multiple of 32, whether it comes from a block of the chain
(line 235) or from a block that `mp_alloc_block` appends (line 141).  The
null pointer of a failed call is covered too. -/
theorem mp_alloc_aligned (sys : Sys) (fuel : Nat) (s s1 : State) (size p : Nat)
    (hsize : size ≤ s.pool.max) (h : mp_alloc sys fuel s size = some (s1, p)) :
    p % MP_ALIGNMENT = 0 := by
  cases fuel with
  | zero => simp [mp_alloc] at h
  | succ fuel =>
    simp only [mp_alloc, hsize, if_true, Option.some.injEq] at h
    unfold mp_alloc_small at h
    cases hscan : mp_scan (fun p => mp_align_ptr p MP_ALIGNMENT) size
        (s.pool.head.drop s.pool.current) with
    | some r =>
      obtain ⟨bl, m⟩ := r
      simp only [hscan, Prod.mk.injEq] at h
      obtain ⟨b, _, hm⟩ := mp_scan_result hscan
      rw [← h.2, hm]
      exact mp_align_ptr_mod _
    | none =>
      simp only [hscan] at h
      cases hm : sys.posix_memalign s.nreq MP_ALIGNMENT (mp_block_psize s.pool) with
      | none =>
        rw [mp_alloc_block_none size hm] at h
        simp only [Prod.mk.injEq] at h
        rw [← h.2]; rfl
      | some m0 =>
        rw [mp_alloc_block_some size hm] at h
        simp only [Prod.mk.injEq] at h
        rw [← h.2]
        exact mp_align_ptr_mod _

/-- C4 on the first `mp_alloc (pool, 512)` of `main`, served by the head
block, and on the ninth, served by a new block. -/
theorem mp_alloc_aligned_witness :
    (mp_alloc demoSys 1 demo_pool 512 = some (demo_pool_512, 1048640) ∧
        1048640 % MP_ALIGNMENT = 0) ∧
      (mp_alloc demoSys 1 demo_full_block 512 = some (demo_ninth, 2097184) ∧
        2097184 % MP_ALIGNMENT = 0) :=
  ⟨⟨by decide,
      mp_alloc_aligned demoSys 1 demo_pool demo_pool_512 512 1048640 (by decide) (by decide)⟩,
    ⟨by decide,
      mp_alloc_aligned demoSys 1 demo_full_block demo_ninth 512 2097184 (by decide) (by decide)⟩⟩

/-- C7: for every pool and every pointer that is not the `alloc` of a record
of the large chain (such as a pointer returned by a small allocation),
`mp_free` frees nothing and leaves the whole state as it is: the large chain,
the block chain, `max`, `current` and the list of freed addresses. -/
theorem mp_free_unknown (s : State) (p : Nat) (h : ∀ r ∈ s.pool.large, r.alloc ≠ p) :
    mp_free s p = s := by
  unfold mp_free
  rw [mp_free_scan_none p _ h]

/-- C7 on the address of the large record itself, a pointer that the small
path returned. -/
theorem mp_free_unknown_witness :
    (∀ r ∈ demo_one_large.pool.large, r.alloc ≠ 1048640) ∧
      mp_free demo_one_large 1048640 = demo_one_large :=
  ⟨by decide, mp_free_unknown demo_one_large 1048640 (by decide)⟩

/-- C8 (the code breaks the claim): when `mp_create_pool` returns a pool made
from the system block `p`, the head block has `last = p + 64` (line 66), and
after `mp_reset_pool` it has `last = head + 32` (line 114), where `head` is
the value found in the field `pool->head` that no line assigns.  The two are
the same only if that value happens to be `p + 32`. -/
theorem mp_reset_pool_head_last (sys : Sys) (C p : Nat) (s0 : State)
    (hp : sys.posix_memalign 0 MP_ALIGNMENT
      (wrap (C + sizeof_mp_pool_s + sizeof_mp_node_s)) = some p)
    (h0 : mp_create_pool sys C = Created.pool s0) :
    s0.pool.head.head?.map (fun b => b.last) =
        some (wrap (p + sizeof_mp_pool_s + sizeof_mp_node_s)) ∧
      (mp_reset_pool s0).pool.head.head?.map (fun b => b.last) =
        some (wrap (sys.uninit.head + sizeof_mp_node_s)) := by
  unfold mp_create_pool at h0
  simp only [hp] at h0
  split at h0
  · simp only [Created.pool.injEq] at h0
    subst h0
    exact ⟨rfl, rfl⟩
  · simp at h0

/-- C8 on the pool created with capacity 32 in recycled memory whose field
`pool->head` holds `2 ^ 20 + 64`: `mp_create_pool` gives the head block
`last = 1048640`, `mp_reset_pool` sets it to `1048672`. -/
theorem mp_reset_pool_head_last_witness :
    mp_create_pool dataSys 32 = Created.pool data_pool_32 ∧
      (data_pool_32.pool.head.head?.map (fun b => b.last) =
          some (wrap (1048576 + sizeof_mp_pool_s + sizeof_mp_node_s)) ∧
        (mp_reset_pool data_pool_32).pool.head.head?.map (fun b => b.last) =
          some (wrap (dataSys.uninit.head + sizeof_mp_node_s))) ∧
      wrap (1048576 + sizeof_mp_pool_s + sizeof_mp_node_s) = 1048640 ∧
      wrap (dataSys.uninit.head + sizeof_mp_node_s) = 1048672 :=
  ⟨by decide,
    mp_reset_pool_head_last dataSys 32 1048576 data_pool_32 (by decide) (by decide),
    by decide, by decide⟩

/-- C9 as stated fails: on the pool created with capacity 32, two calls
`mp_alloc (pool, 1)` right after `mp_reset_pool` have total size 2, yet the
second call starts at the next multiple of 32, which is the end of the block,
and appends a second block.  (The pool is created on `demoSys`, where the
head block lies directly behind the pool header.) -/
theorem reset_then_alloc_new_block :
    mp_create_pool demoSys 32 = Created.pool demo_pool_32 ∧
      (∀ x ∈ [1, 1], x ≤ demo_pool_32.pool.max) ∧ [1, 1].sum ≤ 32 ∧
      demo_pool_32.pool.head.length = 1 ∧
      (mp_alloc_seq demoSys 1 (mp_reset_pool demo_pool_32) [1, 1]).map
        (fun r => r.1.pool.head.length) = some 2 := by
  decide

/-- C9 amended: for every pool in which the block at `current` has a
32-aligned header address `h` and an end `e` inside the address space, a
sequence of `mp_alloc` calls issued right after `mp_reset_pool`, with sizes
that are each at most `pool.max` and of which all but the last rounded up to a
multiple of 32, plus the last, total at most `e - (h + 32)`, the data bytes of
that block, succeeds call by call (one unit of fuel is enough, no pointer is
null) and appends no block: the chain is as long as before and the system is
not asked for memory. -/
theorem reset_then_alloc_no_new_block (sys : Sys) (s : State) (b : mp_node_s) (fuel : Nat)
    (sizes : List Nat) (hfuel : 0 < fuel) (hb : s.pool.head[s.pool.current]? = some b)
    (hal : b.addr % 32 = 0) (hfit : b.addr + 32 + fit_sum sizes ≤ b.end_)
    (hend : b.end_ < 2 ^ 64) (hmax : ∀ x ∈ sizes, x ≤ s.pool.max) :
    ∃ s1 ps, mp_alloc_seq sys fuel (mp_reset_pool s) sizes = some (s1, ps) ∧
      ps.length = sizes.length ∧ (∀ p ∈ ps, p ≠ 0) ∧
      s1.pool.head.length = s.pool.head.length ∧ s1.nreq = s.nreq := by
  obtain ⟨hcur, hbe⟩ := List.getElem?_eq_some_iff.1 hb
  have hsplit : s.pool.head = s.pool.head.take s.pool.current ++
      b :: s.pool.head.drop (s.pool.current + 1) := by
    rw [← hbe, ← List.drop_eq_getElem_cons, List.take_append_drop]
  have hlast : wrap (b.addr + sizeof_mp_node_s) = b.addr + 32 := by
    simp only [wrap, sizeof_mp_node_s]; omega
  have hal2 : mp_align_ptr (b.addr + 32) MP_ALIGNMENT = b.addr + 32 :=
    align_of_aligned _ (by omega) (by omega)
  obtain ⟨s1, ps, hseq, hlen, hps, hhl, hnr⟩ := mp_alloc_seq_fits sys fuel hfuel sizes
    (mp_reset_pool s)
    ((s.pool.head.take s.pool.current).map
      fun h => { h with last := wrap (h.addr + sizeof_mp_node_s) })
    ((s.pool.head.drop (s.pool.current + 1)).map
      fun h => { h with last := wrap (h.addr + sizeof_mp_node_s) })
    { b with last := wrap (b.addr + sizeof_mp_node_s) }
    (by
      have := congrArg
        (List.map fun h : mp_node_s => { h with last := wrap (h.addr + sizeof_mp_node_s) }) hsplit
      simpa only [List.map_append, List.map_cons] using this)
    (by simp [mp_reset_pool]; omega)
    hmax
    (fun _ => by simp only [hlast, hal2]; constructor <;> omega)
    (by simp only; omega)
  exact ⟨s1, ps, hseq, hlen, hps, by rw [hhl]; simp [mp_reset_pool], by rw [hnr]; rfl⟩

/-- C9 amended, on the pool of `main` after the ten allocations of 512 bytes:
three allocations of 256, 100 and 512 bytes after the reset; and on the pool
created with capacity 100 one allocation of 100 bytes, which is served at
1048640 by the only block. -/
theorem reset_then_alloc_no_new_block_witness :
    (mp_create_pool demoSys 4096 = Created.pool demo_pool ∧
      Reachable demoSys demo_pool demo_two_blocks) ∧
    (∃ s1 ps, mp_alloc_seq demoSys 1 (mp_reset_pool demo_two_blocks) [256, 100, 512] =
        some (s1, ps) ∧
      ps.length = [256, 100, 512].length ∧ (∀ p ∈ ps, p ≠ 0) ∧
      s1.pool.head.length = demo_two_blocks.pool.head.length ∧ s1.nreq = demo_two_blocks.nreq) ∧
    mp_create_pool demoSys 100 = Created.pool demo_pool_100 ∧
    (mp_alloc demoSys 1 (mp_reset_pool demo_pool_100) 100).map (fun r => r.2) = some 1048640 ∧
    ∃ s1 ps, mp_alloc_seq demoSys 1 (mp_reset_pool demo_pool_100) [100] = some (s1, ps) ∧
      ps.length = [100].length ∧ (∀ p ∈ ps, p ≠ 0) ∧
      s1.pool.head.length = demo_pool_100.pool.head.length ∧ s1.nreq = demo_pool_100.nreq :=
  ⟨⟨demo_pool_created, demo_two_blocks_reachable⟩,
    reset_then_alloc_no_new_block demoSys demo_two_blocks
      { addr := 1048608, start := 1048640, last := 1052736, end_ := 1052736, failed := 0 }
      1 [256, 100, 512] (by decide) (by decide) (by decide) (by decide) (by decide) (by decide),
    by decide, by decide,
    reset_then_alloc_no_new_block demoSys demo_pool_100
      { addr := 1048608, start := 1048640, last := 1048640, end_ := 1048740, failed := 0 }
      1 [100] (by decide) (by decide) (by decide) (by decide) (by decide) (by decide)⟩

/-- C10 (the code breaks the claim): in a pool whose `max` is below the 16
bytes of a large record and that has no free slot among the first five
records, the request for the record made by `mp_alloc_large` (line 182) is
sent to `mp_alloc_large` again, with a `malloc` of its own, and so on: as long
as `malloc` succeeds, no amount of fuel lets `mp_alloc` return. -/
theorem mp_alloc_record_reenters (sys : Sys) (fuel : Nat) (s : State) (size : Nat)
    (hmax : s.pool.max < sizeof_mp_large_s) (hsize : s.pool.max < size)
    (hfree : ∀ r ∈ s.pool.large.take 5, r.alloc ≠ 0)
    (hsys : ∀ n sz, s.nreq ≤ n → n < s.nreq + fuel → sz = size ∨ sz = sizeof_mp_large_s →
      ∃ q, sys.malloc n sz = some q ∧ q ≠ 0) :
    mp_alloc sys fuel s size = none :=
  mp_alloc_no_return sys fuel s size hmax hsize hfree hsys

/-- C10 on the pool created with capacity 8: `mp_alloc (pool, 100)` has not
returned after 1000 nested calls, each with its own `malloc`. -/
theorem mp_alloc_record_reenters_witness :
    mp_create_pool demoSys 8 = Created.pool demo_pool_8 ∧ mp_alloc demoSys 1000 demo_pool_8 100 = none :=
  ⟨by decide,
    mp_alloc_record_reenters demoSys 1000 demo_pool_8 100 (by decide) (by decide) (by decide)
      (by
        intro n sz _ h2 hsz
        have h3 : n < 1001 := by simpa [demo_pool_8] using h2
        have h4 : 2 ^ 20 * (n + 1) + sz < 2 ^ 64 := by
          simp only [sizeof_mp_large_s] at hsz
          omega
        exact ⟨2 ^ 20 * (n + 1), by simp only [demoSys, h4, if_true], by omega⟩)⟩

/-! ## The claims C11 to C20 -/

/-- C11 (the code breaks the claim): on the pool created with capacity 4096 in
recycled memory whose field `pool->head` holds a stale pointer above the pool,
the first eight calls `mp_alloc (pool, 512)` are served from the first block
at consecutive addresses, but the ninth creates no block.  The block size of
line 126, `head->end` minus the address of the head block, wraps to
`2 ^ 64 - 61376`, which no system can hand out: the call returns `NULL` and
the chain keeps its single block. -/
theorem first_block_no_new_block :
    mp_create_pool staleSys 4096 = Created.pool stale_pool ∧
      mp_alloc_seq staleSys 1 stale_pool (List.replicate (4096 / 512) 512) =
        some (stale_full,
          [1048640, 1049152, 1049664, 1050176, 1050688, 1051200, 1051712, 1052224]) ∧
      mp_block_psize stale_full.pool = 2 ^ 64 - 61376 ∧
      mp_alloc staleSys 1 stale_full 512 = some ({ stale_full with nreq := 2 }, 0) ∧
      stale_full.pool.head.length = 1 := by
  decide

/-- C14: for every pool and every `N`, `mp_calloc (pool, N)` returns whenever
the `mp_alloc` it calls returns, with the same state and pointer.  When the
pointer is not null, each of the `N` bytes from the pointer on reads zero
right after the call, whatever the memory held before, and no other byte is
written; when `mp_alloc` failed the null pointer is returned and the memory is
as it was. -/
theorem mp_calloc_zeroes (sys : Sys) (fuel : Nat) (s s1 : State) (mem : Nat → Nat)
    (size p : Nat) (h : mp_alloc sys fuel s size = some (s1, p)) :
    ∃ mem1, mp_calloc sys fuel s mem size = some (s1, mem1, p) ∧
      (p ≠ 0 → (∀ i, i < size → mem1 (p + i) = 0) ∧
        ∀ a, ¬ (p ≤ a ∧ a < p + size) → mem1 a = mem a) ∧
      (p = 0 → mem1 = mem) := by
  by_cases hp : p = 0
  · refine ⟨mem, by simp [mp_calloc, h, hp], fun hne => absurd hp hne, fun _ => rfl⟩
  · refine ⟨memset_zero mem p size, by simp [mp_calloc, h, hp], fun _ => ⟨?_, ?_⟩,
      fun h0 => absurd h0 hp⟩
    · intro i hi
      simp only [memset_zero]
      rw [if_pos ⟨by omega, by omega⟩]
    · intro a ha
      simp only [memset_zero]
      rw [if_neg ha]

/-- C14 on block memory reused after a reset: all bytes hold 255 before the
call, and the 32 bytes at the returned pointer read zero after it. -/
theorem mp_calloc_zeroes_witness :
    mp_alloc demoSys 1 (mp_reset_pool demo_two_blocks) 32 = some (demo_reset_32, 1048640) ∧
      ∃ mem1, mp_calloc demoSys 1 (mp_reset_pool demo_two_blocks) (fun _ => 255) 32 =
          some (demo_reset_32, mem1, 1048640) ∧
        (1048640 ≠ 0 → (∀ i, i < 32 → mem1 (1048640 + i) = 0) ∧
          ∀ a, ¬ (1048640 ≤ a ∧ a < 1048640 + 32) → mem1 a = (fun _ => 255) a) ∧
        (1048640 = 0 → mem1 = fun _ => 255) :=
  ⟨by decide,
    mp_calloc_zeroes demoSys 1 (mp_reset_pool demo_two_blocks) demo_reset_32 (fun _ => 255) 32
      1048640 (by decide)⟩

/-- C15 as stated fails: the tail block is not counted.  In a reachable pool
whose only block is full, `mp_alloc (pool, 512)` finds no block, appends a
second one, and the counter of the block that was the tail is still 0. -/
theorem walk_skips_tail :
    Reachable demoSys demo_pool demo_full_block ∧
      mp_scan (fun q => mp_align_ptr q MP_ALIGNMENT) 512
        (demo_full_block.pool.head.drop demo_full_block.pool.current) = none ∧
      mp_alloc demoSys 1 demo_full_block 512 = some (demo_ninth, 2097184) ∧
      demo_full_block.pool.head.map (fun b => b.failed) = [0] ∧
      demo_ninth.pool.head.map (fun b => b.failed) = [0, 0] :=
  ⟨reachable_of_run (List.replicate 8 (Op.alloc 512)) Reachable.init
      (by decide : run demoSys 1 demo_pool (List.replicate 8 (Op.alloc 512))
        = some demo_full_block),
    by decide, by decide, by decide, by decide⟩

/-- C15 amended: for every pool and every `mp_alloc` with `size <= pool.max`:
when a block from `current` on takes the request, no counter changes; when no
block takes it and `posix_memalign` fails, the chain is as it was; and when no
block takes it and `posix_memalign` succeeds, the blocks before `current` are
untouched, every block from `current` up to the tail, the tail excluded, has
its counter incremented by one and is otherwise as it was, the tail block is
untouched, and a new block with the counter 0 stands behind it. -/
theorem failed_walk (sys : Sys) (fuel : Nat) (s s1 : State) (size p : Nat)
    (hsize : size ≤ s.pool.max) (h : mp_alloc sys fuel s size = some (s1, p)) :
    (∀ r, mp_scan (fun q => mp_align_ptr q MP_ALIGNMENT) size
        (s.pool.head.drop s.pool.current) = some r →
        s1.pool.head.map (fun b => b.failed) = s.pool.head.map (fun b => b.failed)) ∧
      (mp_scan (fun q => mp_align_ptr q MP_ALIGNMENT) size
          (s.pool.head.drop s.pool.current) = none →
        (sys.posix_memalign s.nreq MP_ALIGNMENT (mp_block_psize s.pool) = none →
          s1.pool.head = s.pool.head) ∧
        (∀ m0, sys.posix_memalign s.nreq MP_ALIGNMENT (mp_block_psize s.pool) = some m0 →
          ∃ nb, nb.failed = 0 ∧
            s1.pool.head = s.pool.head.take s.pool.current ++
              (s.pool.head.drop s.pool.current).dropLast.map incr_failed ++
              (s.pool.head.drop s.pool.current).getLast?.toList ++ [nb])) := by
  cases fuel with
  | zero => simp [mp_alloc] at h
  | succ fuel =>
    simp only [mp_alloc, hsize, if_true, Option.some.injEq] at h
    constructor
    · intro r hr
      obtain ⟨bl, m⟩ := r
      obtain ⟨pre, b, post, hl, _, _, hbl⟩ := mp_scan_blocks hr
      simp only [mp_alloc_small, hr, Prod.mk.injEq] at h
      rw [← h.1]
      simp only [hbl]
      conv => rhs; rw [← List.take_append_drop s.pool.current s.pool.head, hl]
      simp
    · intro hmiss
      constructor
      · intro hm
        simp only [mp_alloc_small, hmiss, mp_alloc_block_none size hm, Prod.mk.injEq] at h
        rw [← h.1]
      · intro m0 hm
        simp only [mp_alloc_small, hmiss, mp_alloc_block_some size hm, Prod.mk.injEq,
          mp_alloc_block_walk_fst] at h
        rw [← h.1]
        exact ⟨{ addr := m0
                 start := mp_align_ptr (wrap (m0 + sizeof_mp_node_s)) MP_ALIGNMENT
                 last := wrap (mp_align_ptr (wrap (m0 + sizeof_mp_node_s)) MP_ALIGNMENT + size)
                 end_ := wrap (m0 + mp_block_psize s.pool)
                 failed := 0 }, rfl, by simp only [List.append_assoc]⟩

/-- C15 amended, on the seventh `mp_alloc (pool, 32)` in a pool of capacity 32,
which has six full blocks: the counters 4, 3, 2, 1, 0 of the first five blocks
become 5, 4, 3, 2, 1 and the counter 0 of the tail stays. -/
theorem failed_walk_witness :
    mp_alloc demoSys 1 demo_32_six 32 = some (demo_32_seven, 7340064) ∧
      demo_32_six.pool.head.map (fun b => b.failed) = [4, 3, 2, 1, 0, 0] ∧
      demo_32_seven.pool.head.map (fun b => b.failed) = [5, 4, 3, 2, 1, 0, 0] ∧
      ∃ nb, nb.failed = 0 ∧
        demo_32_seven.pool.head = demo_32_six.pool.head.take demo_32_six.pool.current ++
          (demo_32_six.pool.head.drop demo_32_six.pool.current).dropLast.map incr_failed ++
          (demo_32_six.pool.head.drop demo_32_six.pool.current).getLast?.toList ++ [nb] :=
  ⟨by decide, by decide, by decide,
    ((failed_walk demoSys 1 demo_32_six demo_32_seven 32 7340064 (by decide) (by decide)).2
      (by decide)).2 7340032 (by decide)⟩

/-- C16 as stated fails: a counter that the walk raises to 5 does not move
`current`.  In a reachable pool of seven blocks the walk of the seventh
`mp_alloc (pool, 32)` raises the counter of the head block from 4 to 5 and
`current` stays at the head block; only the next walk, which finds the counter
5, moves `current` to the second block. -/
theorem current_stays_at_five :
    Reachable demoSys demo_pool_32 demo_32_six ∧
      mp_alloc demoSys 1 demo_32_six 32 = some (demo_32_seven, 7340064) ∧
      demo_32_six.pool.current = 0 ∧
      demo_32_seven.pool.head.head?.map (fun b => b.failed) = some 5 ∧
      demo_32_seven.pool.current = 0 ∧
      mp_alloc demoSys 1 demo_32_seven 32 = some (demo_32_eight, 8388640) ∧
      demo_32_eight.pool.head.head?.map (fun b => b.failed) = some 6 ∧
      demo_32_eight.pool.current = 1 :=
  ⟨demo_32_six_reachable, by decide, by decide, by decide, by decide, by decide, by decide,
    by decide⟩

/-- C16 amended: when an `mp_alloc` with `size <= pool.max` finds no block and
`posix_memalign` succeeds, the walk moves `current` to the successor of a block
exactly when the counter of that block before the increment of this walk
exceeds 4 (so a block is skipped from its 6th failed walk on).  If no block
from `current` up to the tail, the tail excluded, has such a counter, `current`
is unchanged; otherwise `current` ends at the successor of the last such
block. -/
theorem current_advance (sys : Sys) (fuel : Nat) (s s1 : State) (size p m0 : Nat)
    (hsize : size ≤ s.pool.max) (h : mp_alloc sys fuel s size = some (s1, p))
    (hmiss : mp_scan (fun q => mp_align_ptr q MP_ALIGNMENT) size
      (s.pool.head.drop s.pool.current) = none)
    (hsys : sys.posix_memalign s.nreq MP_ALIGNMENT (mp_block_psize s.pool) = some m0) :
    ((∀ j b, s.pool.current ≤ j → j + 1 < s.pool.head.length → s.pool.head[j]? = some b →
        b.failed ≤ 4) → s1.pool.current = s.pool.current) ∧
      (∀ j b, s.pool.current ≤ j → j + 1 < s.pool.head.length → s.pool.head[j]? = some b →
        b.failed > 4 →
        (∀ k c, j < k → k + 1 < s.pool.head.length → s.pool.head[k]? = some c → c.failed ≤ 4) →
        s1.pool.current = j + 1) := by
  cases fuel with
  | zero => simp [mp_alloc] at h
  | succ fuel =>
    simp only [mp_alloc, hsize, if_true, Option.some.injEq, mp_alloc_small, hmiss,
      mp_alloc_block_some size hsys, Prod.mk.injEq] at h
    rw [← h.1]
    simp only
    constructor
    · intro hall
      apply mp_alloc_block_walk_stay_idx
      intro k b hk hb
      rw [List.getElem?_drop] at hb
      rw [List.length_drop] at hk
      exact hall (s.pool.current + k) b (by omega) (by omega) hb
    · intro j b hcj hj hb hf hlast
      have e : s.pool.current + (j - s.pool.current) = j := by omega
      have := mp_alloc_block_walk_move_idx (s.pool.head.drop s.pool.current) s.pool.current
        s.pool.current (j - s.pool.current) b
        (by rw [List.length_drop]; omega)
        (by rw [List.getElem?_drop, e]; exact hb) hf
        (fun k c hjk hk hc => by
          rw [List.getElem?_drop] at hc
          rw [List.length_drop] at hk
          exact hlast (s.pool.current + k) c (by omega) (by omega) hc)
      rw [this]; omega

/-- C16 amended, on the eighth `mp_alloc (pool, 32)` in a pool of capacity 32:
the head block has the counter 5 before the walk, the other walked blocks have
at most 4, and `current` ends at the second block. -/
theorem current_advance_witness :
    mp_alloc demoSys 1 demo_32_seven 32 = some (demo_32_eight, 8388640) ∧
      demo_32_seven.pool.head.map (fun b => b.failed) = [5, 4, 3, 2, 1, 0, 0] ∧
      demo_32_eight.pool.current = 0 + 1 :=
  ⟨by decide, by decide,
    (current_advance demoSys 1 demo_32_seven demo_32_eight 32 8388640 8388608 (by decide)
      (by decide) (by decide) (by decide)).2 0
      { addr := 1048608, start := 1048640, last := 1048672, end_ := 1048672, failed := 5 }
      (by decide) (by decide) (by decide) (by decide)
      (by
        intro k c hk hk1 hc
        have hk7 : k + 1 < 7 := by simpa [demo_32_seven] using hk1
        have : k = 1 ∨ k = 2 ∨ k = 3 ∨ k = 4 ∨ k = 5 := by omega
        rcases this with rfl | rfl | rfl | rfl | rfl <;>
          · simp only [demo_32_seven, List.getElem?_cons_succ, List.getElem?_cons_zero,
              Option.some.injEq] at hc
            subst hc
            decide)⟩

/-- C17 (the code breaks the claim): `current` does not stay reachable from
`head`.  On a system that places the second block 96 bytes below the pool, the
pool created with capacity 40 reaches, after eight `mp_alloc (pool, 32)`,
`mp_nalloc (pool, 8)` and `mp_alloc (pool, 32)`, a state in which `current` is
the second block and that block has run past its `end` up to the header of the
head block at 1048608.  `mp_calloc (pool, 32)` then returns 1048608 and its
`memset` zeroes the header, whatever the memory held: the eight bytes of the
field `next` of the head block read zero, so the chain from `head` ends at the
head block. -/
theorem calloc_cuts_chain :
    SysOK tightSys ∧ mp_create_pool tightSys 40 = Created.pool demo_pool_40 ∧
      Reachable tightSys demo_pool_40 tight_before ∧
      tight_before.pool.current = 1 ∧
      tight_before.pool.head.head?.map (fun b => b.addr) = some 1048608 ∧
      tight_after.pool.current = 1 ∧
      ∀ mem : Nat → Nat, ∃ mem1,
        mp_calloc tightSys 1 tight_before mem 32 = some (tight_after, mem1, 1048608) ∧
        ∀ i, i < 8 → mem1 (1048608 + offsetof_next + i) = 0 := by
  refine ⟨tightSys_ok, by decide,
    reachable_of_run (List.replicate 8 (Op.alloc 32) ++ [Op.nalloc 8, Op.alloc 32])
      Reachable.init
      (by decide : run tightSys 1 demo_pool_40
        (List.replicate 8 (Op.alloc 32) ++ [Op.nalloc 8, Op.alloc 32]) = some tight_before),
    by decide, by decide, by decide,
    fun mem => ⟨memset_zero mem 1048608 32, ?_, ?_⟩⟩
  · have h : mp_alloc tightSys 1 tight_before 32 = some (tight_after, 1048608) := by decide
    simp [mp_calloc, h]
  · intro i hi
    simp only [memset_zero, offsetof_next]
    rw [if_pos ⟨by omega, by omega⟩]

/-- C18 (the code breaks the claim): the block that `mp_alloc_block` appends
can be too short for the request.  On the pool created with capacity 32 in
recycled memory whose field `pool->head` holds `2 ^ 20 + 64`, the head block
is full after one `mp_alloc (pool, 32)`; the next `mp_alloc (pool, 32)` finds
no room, the system allocation succeeds, and the block appended has the size
`head->end` minus the address of the head block, 32 bytes, all of it header:
its `last` is 32 bytes behind its `end`. -/
theorem new_block_too_short :
    mp_create_pool dataSys 32 = Created.pool data_pool_32 ∧
      Reachable dataSys data_pool_32 data_full ∧
      32 ≤ data_full.pool.max ∧
      mp_scan (fun p => mp_align_ptr p MP_ALIGNMENT) 32
        (data_full.pool.head.drop data_full.pool.current) = none ∧
      mp_block_psize data_full.pool = 32 ∧
      dataSys.posix_memalign data_full.nreq MP_ALIGNMENT (mp_block_psize data_full.pool) =
        some 2097152 ∧
      mp_alloc dataSys 1 data_full 32 = some (data_grown, 2097184) ∧
      ∃ b, data_grown.pool.head = data_full.pool.head ++ [b] ∧ b.addr = 2097152 ∧
        b.last = 2097184 + 32 ∧ b.end_ + 32 = b.last :=
  ⟨by decide,
    reachable_of_run [Op.alloc 32] Reachable.init
      (by decide : run dataSys 1 data_pool_32 [Op.alloc 32] = some data_full),
    by decide, by decide, by decide, by decide, by decide,
    { addr := 2097152, start := 2097184, last := 2097216, end_ := 2097184, failed := 0 },
    by decide, by decide, by decide, by decide⟩

/-- C19 (the code breaks the claim): a block before `current` does not keep
`failed = 6`.  On a system that places the second block 96 bytes below the
pool, the pool created with capacity 40 reaches, after eight
`mp_alloc (pool, 32)`, `mp_nalloc (pool, 8)` and `mp_alloc (pool, 32)`, a state
in which the head block stands before `current` with `failed = 6`.
`mp_calloc (pool, 32)` then returns the address of the header of the head
block and zeroes it: the eight bytes of its field `failed` read zero while
`current` is still the second block. -/
theorem calloc_clears_failed :
    mp_create_pool tightSys 40 = Created.pool demo_pool_40 ∧
      run tightSys 1 demo_pool_40
        (List.replicate 8 (Op.alloc 32) ++ [Op.nalloc 8, Op.alloc 32]) = some tight_before ∧
      tight_before.pool.current = 1 ∧
      tight_before.pool.head.head?.map (fun b => (b.addr, b.failed)) = some (1048608, 6) ∧
      tight_after.pool.current = 1 ∧
      ∀ mem : Nat → Nat, ∃ mem1,
        mp_calloc tightSys 1 tight_before mem 32 = some (tight_after, mem1, 1048608) ∧
        ∀ i, i < 8 → mem1 (1048608 + offsetof_failed + i) = 0 := by
  refine ⟨by decide, by decide, by decide, by decide, by decide,
    fun mem => ⟨memset_zero mem 1048608 32, ?_, ?_⟩⟩
  · have h : mp_alloc tightSys 1 tight_before 32 = some (tight_after, 1048608) := by decide
    simp [mp_calloc, h]
  · intro i hi
    simp only [memset_zero, offsetof_failed]
    rw [if_pos ⟨by omega, by omega⟩]

/-- C20 (the code breaks the claim): a capacity that is a multiple of 32 does
not keep the allocations in bounds.  The pool created with capacity 32 in
recycled memory whose field `pool->head` holds `2 ^ 20 + 64` reaches, by two
calls `mp_alloc (pool, 32)`, a state with a block whose `last` lies behind its
`end`, and the 32 bytes returned by the second call lie in the data range of
no block. -/
theorem multiple_of_32_out_of_bounds :
    SysOK dataSys ∧ mp_create_pool dataSys 32 = Created.pool data_pool_32 ∧
      run dataSys 1 data_pool_32 [Op.alloc 32, Op.alloc 32] = some data_grown ∧
      Reachable dataSys data_pool_32 data_grown ∧
      (∃ b ∈ data_grown.pool.head, b.end_ < b.last) ∧
      (mp_alloc dataSys 1 data_full 32).map (fun r => r.2) = some 2097184 ∧
      ∀ b ∈ data_grown.pool.head, ¬ (b.start ≤ 2097184 ∧ 2097184 + 32 ≤ b.end_) :=
  ⟨demoSys_ok, by decide, by decide,
    reachable_of_run [Op.alloc 32, Op.alloc 32] Reachable.init
      (by decide : run dataSys 1 data_pool_32 [Op.alloc 32, Op.alloc 32] = some data_grown),
    by decide, by decide, by decide⟩

end MMPool
